import Mathlib

/-!
Verification of the duckdb_spatial geometry core: a shallow embedding of the
geometry data model and of the WKT text parser (`WKTReader`, from
src/spatial/src/spatial/gdal/functions/st_write.cpp, second compilation unit),
of the `ST_TileEnvelope` scalar function and of the per-ring area loop of
`ST_Area_Spheroid` (both from
src/spatial/src/spatial/core/functions/scalar/st_tileenvelope.cpp), together
with a binary codec modelled from the specification (the codec implementation
itself is not among the provided sources).

Modelling conventions:
* C++ `double` coordinates are embedded as exact rationals (`Rat`); the
  number grammar is the decimal-literal grammar of `duckdb_fast_float`
  (`from_chars`), evaluated exactly.
* The parser's cursor `(start, cursor, end)` is embedded as the remaining
  suffix of the input character list; the fixed prefix consumed so far is
  recovered from the whole input where error messages need it.
* `Match`/`MatchCI` in the source dereference `*cursor` without checking
  `cursor < end`; a dereference at or past `end` is undefined behaviour and is
  embedded as the distinguished outcome `Failure.oobRead`.
* The mutual recursion `ParseGeometry` / `ParseGeometryCollection` is made
  total with a fuel argument; the top level supplies `input.length + 1` fuel,
  and `Failure.outOfFuel` is an artifact of the embedding, not a behaviour of
  the source.
-/

set_option linter.unusedVariables false

deriving instance DecidableEq for Except

namespace DuckdbSpatial

/-! ## Data model (§3 of the spec; geometry.hpp as used by the sources)

A `VertexArray` is the flat, dimension-tagged coordinate buffer: `has_z` and
`has_m` fix the tuple width (2-4 doubles), `verts` lists the tuples in order.
-/

/-- One coordinate tuple as pushed by `WKTReader::ParseVertex`: `x, y[, z][, m]`. -/
abbrev Vertex := List Rat

/-- The flat, dimension-tagged coordinate buffer (`VertexArray`). -/
structure VertexArray where
  has_z : Bool
  has_m : Bool
  verts : List Vertex
deriving DecidableEq, Repr

/-- `VertexArray::Count()`: the number of vertices (a `uint32_t` in the source). -/
def VertexArray.Count (v : VertexArray) : Nat := v.verts.length

/-- `VertexArray::Empty(has_z, has_m)`: zero vertices. -/
def VertexArray.Empty (hz hm : Bool) : VertexArray := ⟨hz, hm, []⟩

/-- `Point`: wraps one vertex array holding 0 or 1 vertex. -/
structure Point where
  va : VertexArray
deriving DecidableEq, Repr

/-- `LineString`: wraps one vertex array. -/
structure LineString where
  va : VertexArray
deriving DecidableEq, Repr

/-- `Polygon`: dimension flags and an ordered sequence of rings (ring 0 the
shell, the rest holes). -/
structure Polygon where
  has_z : Bool
  has_m : Bool
  rings : List VertexArray
deriving DecidableEq, Repr

/-- `Polygon::RingCount()`. -/
def Polygon.RingCount (p : Polygon) : Nat := p.rings.length

/-- `MultiPoint`: dimension flags and an ordered sequence of points. -/
structure MultiPoint where
  has_z : Bool
  has_m : Bool
  points : List Point
deriving DecidableEq, Repr

/-- `MultiLineString`. -/
structure MultiLineString where
  has_z : Bool
  has_m : Bool
  lines : List LineString
deriving DecidableEq, Repr

/-- `MultiPolygon`. -/
structure MultiPolygon where
  has_z : Bool
  has_m : Bool
  polygons : List Polygon
deriving DecidableEq, Repr

mutual
/-- `Geometry`: the tagged union over the seven shape kinds. A
`GeometryCollection` holds a heterogeneous sequence of geometries; the
sequence is a mutually-defined list so that equality and recursion stay
structural. -/
inductive Geometry where
  | point (p : Point)
  | linestring (l : LineString)
  | polygon (p : Polygon)
  | multipoint (m : MultiPoint)
  | multilinestring (m : MultiLineString)
  | multipolygon (m : MultiPolygon)
  | geometrycollection (has_z has_m : Bool) (geoms : GeometryList)
deriving DecidableEq
/-- The child sequence of a `GeometryCollection`. -/
inductive GeometryList where
  | nil
  | cons (g : Geometry) (tl : GeometryList)
deriving DecidableEq
end

/-- Build a `GeometryList` from a Lean list (the parser accumulates children
in a `std::vector` and then fills the collection by indexed assignment). -/
def GeometryList.ofList : List Geometry → GeometryList
  | [] => .nil
  | g :: gs => .cons g (GeometryList.ofList gs)

/-- The `has_z` flag a geometry node carries (for `Point`/`LineString` the
flag lives on the wrapped vertex array). -/
def Geometry.geomHasZ : Geometry → Bool
  | .point p => p.va.has_z
  | .linestring l => l.va.has_z
  | .polygon p => p.has_z
  | .multipoint m => m.has_z
  | .multilinestring m => m.has_z
  | .multipolygon m => m.has_z
  | .geometrycollection z _ _ => z

/-- The `has_m` flag a geometry node carries. -/
def Geometry.geomHasM : Geometry → Bool
  | .point p => p.va.has_m
  | .linestring l => l.va.has_m
  | .polygon p => p.has_m
  | .multipoint m => m.has_m
  | .multilinestring m => m.has_m
  | .multipolygon m => m.has_m
  | .geometrycollection _ m _ => m

mutual
/-- Every node of the tree (each geometry, and each vertex array it owns)
carries exactly the dimension flags `(hz, hm)`. -/
def Geometry.dimsUniform (hz hm : Bool) : Geometry → Bool
  | .point p => p.va.has_z == hz && p.va.has_m == hm
  | .linestring l => l.va.has_z == hz && l.va.has_m == hm
  | .polygon p =>
    p.has_z == hz && p.has_m == hm &&
      p.rings.all (fun r => r.has_z == hz && r.has_m == hm)
  | .multipoint m =>
    m.has_z == hz && m.has_m == hm &&
      m.points.all (fun p => p.va.has_z == hz && p.va.has_m == hm)
  | .multilinestring m =>
    m.has_z == hz && m.has_m == hm &&
      m.lines.all (fun l => l.va.has_z == hz && l.va.has_m == hm)
  | .multipolygon m =>
    m.has_z == hz && m.has_m == hm &&
      m.polygons.all (fun p =>
        p.has_z == hz && p.has_m == hm &&
          p.rings.all (fun r => r.has_z == hz && r.has_m == hm))
  | .geometrycollection z m gs => z == hz && m == hm && GeometryList.dimsUniform hz hm gs
/-- `Geometry.dimsUniform` over a child list. -/
def GeometryList.dimsUniform (hz hm : Bool) : GeometryList → Bool
  | .nil => true
  | .cons g tl => g.dimsUniform hz hm && tl.dimsUniform hz hm
end

/-- A ring is logically closed when it is empty or its first vertex equals its
last vertex. -/
def VertexArray.ringClosed (v : VertexArray) : Bool :=
  v.verts.isEmpty || (v.verts.head? == v.verts.getLast?)

/-- All rings of a polygon are logically closed. -/
def Polygon.ringsClosed (p : Polygon) : Bool := p.rings.all VertexArray.ringClosed

mutual
/-- Every ring of every polygon anywhere in the tree is logically closed. -/
def Geometry.ringsClosed : Geometry → Bool
  | .point _ => true
  | .linestring _ => true
  | .polygon p => p.ringsClosed
  | .multipoint _ => true
  | .multilinestring _ => true
  | .multipolygon m => m.polygons.all Polygon.ringsClosed
  | .geometrycollection _ _ gs => GeometryList.ringsClosed gs
/-- `Geometry.ringsClosed` over a child list. -/
def GeometryList.ringsClosed : GeometryList → Bool
  | .nil => true
  | .cons g tl => g.ringsClosed && tl.ringsClosed
end

/-! ## The WKT reader (`WKTReader`, wkt_reader.cpp)

The reader state is `(start, cursor, end)` plus the dimension flags
`has_z`, `has_m`, `zm_set`.  Here `rem` is the suffix `[cursor, end)`;
functions that mutate the flags take and return them explicitly.  Failures
carry the suffix at the failure position, from which the byte offset and the
error context are recovered at the top level exactly as
`WKTReader::GetErrorContext` computes them. -/

/-- A parse failure. The first four mirror the four `throw` sites of the
source (`Expect`, `ParseDouble`, `ParseGeometry`, `CheckZM`); `oobRead` marks
a dereference of `*cursor` at or past `end` (undefined behaviour in the
source); `outOfFuel` is an artifact of the fuel-based embedding. -/
inductive Failure where
  | expectedChar (c : Char) (remAt : List Char)
  | expectedDouble (remAt : List Char)
  | unknownType (word : String) (remAt : List Char)
  | mixedZM (remAt : List Char)
  | oobRead (remAt : List Char)
  | outOfFuel
deriving DecidableEq, Repr

namespace WKTReader

/-- `std::isspace` (C locale) on the characters relevant to WKT input. -/
def isSpaceChar (c : Char) : Bool :=
  c == ' ' || c == '\t' || c == '\n' || c == '\x0b' || c == '\x0c' || c == '\r'

/-- `while (cursor < end && std::isspace(*cursor)) cursor++`. -/
def SkipWhitespace : List Char → List Char
  | [] => []
  | c :: r => if isSpaceChar c then SkipWhitespace r else c :: r

/-- `WKTReader::Match(char)`: dereferences `*cursor` (without a bounds check,
hence `oobRead` on empty remainder), consumes the character if it matches and
then skips trailing whitespace. -/
def Match (c : Char) (rem : List Char) : Except Failure (Bool × List Char) :=
  match rem with
  | [] => .error (.oobRead rem)
  | d :: r => if d = c then .ok (true, SkipWhitespace r) else .ok (false, rem)

/-- The keyword loop of `WKTReader::MatchCI`: compares `tolower(*str)` with
`tolower(*cursor)` for each keyword character, dereferencing `*cursor`
without a bounds check. Returns `some rem'` (whitespace skipped) on a full
match, `none` on a mismatch. -/
def MatchCIGo : List Char → List Char → Except Failure (Option (List Char))
  | [], rem => .ok (some (SkipWhitespace rem))
  | k :: ks, rem =>
    match rem with
    | [] => .error (.oobRead rem)
    | d :: r => if d.toLower = k.toLower then MatchCIGo ks r else .ok none

/-- `WKTReader::MatchCI(const char*)`: on a mismatch the cursor is reset to
its position at entry. -/
def MatchCI (kw : String) (rem : List Char) : Except Failure (Bool × List Char) :=
  match MatchCIGo kw.data rem with
  | .error e => .error e
  | .ok none => .ok (false, rem)
  | .ok (some r) => .ok (true, r)

/-- `WKTReader::Expect(char)`: `Match` or throw. -/
def Expect (c : Char) (rem : List Char) : Except Failure (List Char) :=
  match Match c rem with
  | .error e => .error e
  | .ok (true, r) => .ok r
  | .ok (false, _) => .error (.expectedChar c rem)

/-- `WKTReader::ParseWord`: the maximal run of alphanumeric characters at the
cursor (used only to build the unknown-keyword message). -/
def ParseWordGo : List Char → List Char × List Char
  | [] => ([], [])
  | c :: r =>
    if !isSpaceChar c && c.isAlphanum then
      let p := ParseWordGo r
      (c :: p.1, p.2)
    else ([], c :: r)

/-- The maximal run of decimal digits at the head of the list. -/
def TakeDigits : List Char → List Char × List Char
  | [] => ([], [])
  | c :: r =>
    if c.isDigit then
      let p := TakeDigits r
      (c :: p.1, p.2)
    else ([], c :: r)

/-- The value of a digit run, most significant first. -/
def DigitsVal (ds : List Char) : Nat := ds.foldl (fun a c => a * 10 + (c.toNat - 48)) 0

/-- The exact rational `(-1)^neg * mant * 10^e`, built only from `mkRat` so
that it stays kernel-computable. -/
def RatOfDecimal (neg : Bool) (mant : Nat) (e : Int) : Rat :=
  let n : Int := if neg then -(mant : Int) else (mant : Int)
  if 0 ≤ e then mkRat (n * ((10 : Int) ^ e.toNat)) 1
  else mkRat n ((10 : Nat) ^ (-e).toNat)

/-- Model of `duckdb_fast_float::from_chars<double>(cursor, end, data)` on the
decimal grammar `[-]? digits [. digits]? [(e|E) [+-]? digits]?` with at least
one mantissa digit, evaluated exactly; a malformed exponent part is rolled
back and not consumed (`chars_format::general`). Infinities and NaNs are
outside the numeric model. No leading whitespace is skipped. -/
def FromChars (rem : List Char) : Option (Rat × List Char) :=
  let s1 : Bool × List Char :=
    match rem with
    | '-' :: r => (true, r)
    | _ => (false, rem)
  let ip := TakeDigits s1.2
  let fr : List Char × List Char :=
    match ip.2 with
    | '.' :: r => TakeDigits r
    | _ => ([], ip.2)
  if ip.1.isEmpty && fr.1.isEmpty then none
  else
    let mant := DigitsVal ip.1 * 10 ^ fr.1.length + DigitsVal fr.1
    let ex : Int × List Char :=
      match fr.2 with
      | c :: r4 =>
        if c = 'e' ∨ c = 'E' then
          match r4 with
          | '+' :: r5 =>
            (match TakeDigits r5 with
             | ([], _) => ((0 : Int), fr.2)
             | (ds, r6) => ((DigitsVal ds : Int), r6))
          | '-' :: r5 =>
            (match TakeDigits r5 with
             | ([], _) => ((0 : Int), fr.2)
             | (ds, r6) => (-(DigitsVal ds : Int), r6))
          | _ =>
            (match TakeDigits r4 with
             | ([], _) => ((0 : Int), fr.2)
             | (ds, r6) => ((DigitsVal ds : Int), r6))
        else ((0 : Int), fr.2)
      | [] => ((0 : Int), fr.2)
    some (RatOfDecimal s1.1 mant (ex.1 - (fr.1.length : Int)), ex.2)

/-- `WKTReader::TryParseDouble`: `from_chars`, then skip trailing whitespace. -/
def TryParseDouble (rem : List Char) : Option (Rat × List Char) :=
  match FromChars rem with
  | some (v, r) => some (v, SkipWhitespace r)
  | none => none

/-- `WKTReader::ParseDouble`: `TryParseDouble` or throw. -/
def ParseDouble (rem : List Char) : Except Failure (Rat × List Char) :=
  match TryParseDouble rem with
  | some vr => .ok vr
  | none => .error (.expectedDouble rem)

/-- `WKTReader::ParseVertex`: `x`, `y`, then `z` if `has_z`, then `m` if
`has_m`, pushed in that order. -/
def ParseVertex (hz hm : Bool) (rem : List Char) : Except Failure (Vertex × List Char) :=
  match ParseDouble rem with
  | .error e => .error e
  | .ok (x, r1) =>
    match ParseDouble r1 with
    | .error e => .error e
    | .ok (y, r2) =>
      if hz then
        match ParseDouble r2 with
        | .error e => .error e
        | .ok (z, r3) =>
          if hm then
            match ParseDouble r3 with
            | .error e => .error e
            | .ok (m, r4) => .ok ([x, y, z, m], r4)
          else .ok ([x, y, z], r3)
      else
        if hm then
          match ParseDouble r2 with
          | .error e => .error e
          | .ok (m, r3) => .ok ([x, y, m], r3)
        else .ok ([x, y], r2)

/-- The `while (Match(','))` loop of `WKTReader::ParseVertices`. -/
def ParseVerticesLoop (hz hm : Bool) : Nat → List Char → List Vertex →
    Except Failure (List Vertex × List Char)
  | 0, _, _ => .error .outOfFuel
  | fuel+1, rem, acc =>
    match Match ',' rem with
    | .error e => .error e
    | .ok (true, r) =>
      match ParseVertex hz hm r with
      | .error e => .error e
      | .ok (v, r2) => ParseVerticesLoop hz hm fuel r2 (acc ++ [v])
    | .ok (false, _) => .ok (acc, rem)

/-- `WKTReader::ParseVertices`: `EMPTY`, or a parenthesized comma-list of
vertices copied into an arena-owned `VertexArray`. -/
def ParseVertices (hz hm : Bool) (fuel : Nat) (rem : List Char) :
    Except Failure (VertexArray × List Char) :=
  match MatchCI "EMPTY" rem with
  | .error e => .error e
  | .ok (true, r) => .ok (VertexArray.Empty hz hm, r)
  | .ok (false, _) =>
    match Expect '(' rem with
    | .error e => .error e
    | .ok r =>
      match ParseVertex hz hm r with
      | .error e => .error e
      | .ok (v, r1) =>
        match ParseVerticesLoop hz hm fuel r1 [v] with
        | .error e => .error e
        | .ok (vs, r2) =>
          match Expect ')' r2 with
          | .error e => .error e
          | .ok r3 => .ok (⟨hz, hm, vs⟩, r3)

/-- `WKTReader::ParsePoint`: `EMPTY` or one parenthesized vertex. -/
def ParsePoint (hz hm : Bool) (rem : List Char) : Except Failure (Point × List Char) :=
  match MatchCI "EMPTY" rem with
  | .error e => .error e
  | .ok (true, r) => .ok (⟨VertexArray.Empty hz hm⟩, r)
  | .ok (false, _) =>
    match Expect '(' rem with
    | .error e => .error e
    | .ok r =>
      match ParseVertex hz hm r with
      | .error e => .error e
      | .ok (v, r1) =>
        match Expect ')' r1 with
        | .error e => .error e
        | .ok r2 => .ok (⟨⟨hz, hm, [v]⟩⟩, r2)

/-- `WKTReader::ParseLineString`. -/
def ParseLineString (hz hm : Bool) (fuel : Nat) (rem : List Char) :
    Except Failure (LineString × List Char) :=
  match ParseVertices hz hm fuel rem with
  | .error e => .error e
  | .ok (va, r) => .ok (⟨va⟩, r)

/-- The ring loop of `WKTReader::ParsePolygon`. -/
def ParsePolygonLoop (hz hm : Bool) : Nat → List Char → List VertexArray →
    Except Failure (List VertexArray × List Char)
  | 0, _, _ => .error .outOfFuel
  | fuel+1, rem, acc =>
    match Match ',' rem with
    | .error e => .error e
    | .ok (true, r) =>
      match ParseVertices hz hm fuel r with
      | .error e => .error e
      | .ok (va, r2) => ParsePolygonLoop hz hm fuel r2 (acc ++ [va])
    | .ok (false, _) => .ok (acc, rem)

/-- `WKTReader::ParsePolygon`: `EMPTY` (zero rings), or a parenthesized
comma-list of vertex lists. -/
def ParsePolygon (hz hm : Bool) (fuel : Nat) (rem : List Char) :
    Except Failure (Polygon × List Char) :=
  match MatchCI "EMPTY" rem with
  | .error e => .error e
  | .ok (true, r) => .ok (⟨hz, hm, []⟩, r)
  | .ok (false, _) =>
    match Expect '(' rem with
    | .error e => .error e
    | .ok r =>
      match ParseVertices hz hm fuel r with
      | .error e => .error e
      | .ok (va, r1) =>
        match ParsePolygonLoop hz hm fuel r1 [va] with
        | .error e => .error e
        | .ok (rs, r2) =>
          match Expect ')' r2 with
          | .error e => .error e
          | .ok r3 => .ok (⟨hz, hm, rs⟩, r3)

/-- One item of a `MULTIPOINT` body: the surrounding parens around the vertex
are optional (`optional_paren` in the source). -/
def ParseMultiPointItem (hz hm : Bool) (rem : List Char) :
    Except Failure (Point × List Char) :=
  match Match '(' rem with
  | .error e => .error e
  | .ok (true, r) =>
    match ParseVertex hz hm r with
    | .error e => .error e
    | .ok (v, r1) =>
      match Expect ')' r1 with
      | .error e => .error e
      | .ok r2 => .ok (⟨⟨hz, hm, [v]⟩⟩, r2)
  | .ok (false, _) =>
    match ParseVertex hz hm rem with
    | .error e => .error e
    | .ok (v, r1) => .ok (⟨⟨hz, hm, [v]⟩⟩, r1)

/-- The item loop of `WKTReader::ParseMultiPoint`. -/
def ParseMultiPointLoop (hz hm : Bool) : Nat → List Char → List Point →
    Except Failure (List Point × List Char)
  | 0, _, _ => .error .outOfFuel
  | fuel+1, rem, acc =>
    match Match ',' rem with
    | .error e => .error e
    | .ok (true, r) =>
      match ParseMultiPointItem hz hm r with
      | .error e => .error e
      | .ok (p, r2) => ParseMultiPointLoop hz hm fuel r2 (acc ++ [p])
    | .ok (false, _) => .ok (acc, rem)

/-- `WKTReader::ParseMultiPoint`. -/
def ParseMultiPoint (hz hm : Bool) (fuel : Nat) (rem : List Char) :
    Except Failure (MultiPoint × List Char) :=
  match MatchCI "EMPTY" rem with
  | .error e => .error e
  | .ok (true, r) => .ok (⟨hz, hm, []⟩, r)
  | .ok (false, _) =>
    match Expect '(' rem with
    | .error e => .error e
    | .ok r =>
      match ParseMultiPointItem hz hm r with
      | .error e => .error e
      | .ok (p, r1) =>
        match ParseMultiPointLoop hz hm fuel r1 [p] with
        | .error e => .error e
        | .ok (ps, r2) =>
          match Expect ')' r2 with
          | .error e => .error e
          | .ok r3 => .ok (⟨hz, hm, ps⟩, r3)

/-- The item loop of `WKTReader::ParseMultiLineString`. -/
def ParseMultiLineStringLoop (hz hm : Bool) : Nat → List Char → List LineString →
    Except Failure (List LineString × List Char)
  | 0, _, _ => .error .outOfFuel
  | fuel+1, rem, acc =>
    match Match ',' rem with
    | .error e => .error e
    | .ok (true, r) =>
      match ParseLineString hz hm fuel r with
      | .error e => .error e
      | .ok (l, r2) => ParseMultiLineStringLoop hz hm fuel r2 (acc ++ [l])
    | .ok (false, _) => .ok (acc, rem)

/-- `WKTReader::ParseMultiLineString`. -/
def ParseMultiLineString (hz hm : Bool) (fuel : Nat) (rem : List Char) :
    Except Failure (MultiLineString × List Char) :=
  match MatchCI "EMPTY" rem with
  | .error e => .error e
  | .ok (true, r) => .ok (⟨hz, hm, []⟩, r)
  | .ok (false, _) =>
    match Expect '(' rem with
    | .error e => .error e
    | .ok r =>
      match ParseLineString hz hm fuel r with
      | .error e => .error e
      | .ok (l, r1) =>
        match ParseMultiLineStringLoop hz hm fuel r1 [l] with
        | .error e => .error e
        | .ok (ls, r2) =>
          match Expect ')' r2 with
          | .error e => .error e
          | .ok r3 => .ok (⟨hz, hm, ls⟩, r3)

/-- The item loop of `WKTReader::ParseMultiPolygon`. -/
def ParseMultiPolygonLoop (hz hm : Bool) : Nat → List Char → List Polygon →
    Except Failure (List Polygon × List Char)
  | 0, _, _ => .error .outOfFuel
  | fuel+1, rem, acc =>
    match Match ',' rem with
    | .error e => .error e
    | .ok (true, r) =>
      match ParsePolygon hz hm fuel r with
      | .error e => .error e
      | .ok (p, r2) => ParseMultiPolygonLoop hz hm fuel r2 (acc ++ [p])
    | .ok (false, _) => .ok (acc, rem)

/-- `WKTReader::ParseMultiPolygon`. -/
def ParseMultiPolygon (hz hm : Bool) (fuel : Nat) (rem : List Char) :
    Except Failure (MultiPolygon × List Char) :=
  match MatchCI "EMPTY" rem with
  | .error e => .error e
  | .ok (true, r) => .ok (⟨hz, hm, []⟩, r)
  | .ok (false, _) =>
    match Expect '(' rem with
    | .error e => .error e
    | .ok r =>
      match ParsePolygon hz hm fuel r with
      | .error e => .error e
      | .ok (p, r1) =>
        match ParseMultiPolygonLoop hz hm fuel r1 [p] with
        | .error e => .error e
        | .ok (ps, r2) =>
          match Expect ')' r2 with
          | .error e => .error e
          | .ok r3 => .ok (⟨hz, hm, ps⟩, r3)

/-- The tail of `WKTReader::CheckZM`: compare the declared flags `(gz, gm)`
with the reader flags, or establish them when `zm_set` is still false. -/
def CheckZMFinish (hz hm zmSet gz gm : Bool) (rem : List Char) :
    Except Failure ((Bool × Bool × Bool) × List Char) :=
  if zmSet then
    if hz != gz || hm != gm then .error (.mixedZM rem)
    else .ok ((hz, hm, true), rem)
  else .ok ((gz, gm, true), rem)

/-- `WKTReader::CheckZM`: read an optional case-sensitive `Z`, `ZM` or `M`
suffix after the shape keyword, then check or establish the reader flags. -/
def CheckZM (hz hm zmSet : Bool) (rem : List Char) :
    Except Failure ((Bool × Bool × Bool) × List Char) :=
  match Match 'Z' rem with
  | .error e => .error e
  | .ok (true, r1) =>
    match Match 'M' r1 with
    | .error e => .error e
    | .ok (true, r2) => CheckZMFinish hz hm zmSet true true r2
    | .ok (false, _) => CheckZMFinish hz hm zmSet true false r1
  | .ok (false, _) =>
    match Match 'M' rem with
    | .error e => .error e
    | .ok (true, r1) => CheckZMFinish hz hm zmSet false true r1
    | .ok (false, _) => CheckZMFinish hz hm zmSet false false rem

mutual
/-- `WKTReader::ParseGeometry`: try the seven shape keywords in source order,
check the `Z`/`M` suffix, parse the kind-specific body; an unknown keyword
throws with the context captured before the word is read. Returns the
geometry together with the updated reader flags. -/
def ParseGeometry : Nat → Bool → Bool → Bool → List Char →
    Except Failure ((Geometry × Bool × Bool × Bool) × List Char)
  | 0, _, _, _, _ => .error .outOfFuel
  | fuel+1, hz, hm, zm, rem =>
    match MatchCI "POINT" rem with
    | .error e => .error e
    | .ok (true, r) =>
      match CheckZM hz hm zm r with
      | .error e => .error e
      | .ok ((hz1, hm1, zm1), r1) =>
        match ParsePoint hz1 hm1 r1 with
        | .error e => .error e
        | .ok (p, r2) => .ok ((.point p, hz1, hm1, zm1), r2)
    | .ok (false, _) =>
    match MatchCI "LINESTRING" rem with
    | .error e => .error e
    | .ok (true, r) =>
      match CheckZM hz hm zm r with
      | .error e => .error e
      | .ok ((hz1, hm1, zm1), r1) =>
        match ParseLineString hz1 hm1 fuel r1 with
        | .error e => .error e
        | .ok (l, r2) => .ok ((.linestring l, hz1, hm1, zm1), r2)
    | .ok (false, _) =>
    match MatchCI "POLYGON" rem with
    | .error e => .error e
    | .ok (true, r) =>
      match CheckZM hz hm zm r with
      | .error e => .error e
      | .ok ((hz1, hm1, zm1), r1) =>
        match ParsePolygon hz1 hm1 fuel r1 with
        | .error e => .error e
        | .ok (p, r2) => .ok ((.polygon p, hz1, hm1, zm1), r2)
    | .ok (false, _) =>
    match MatchCI "MULTIPOINT" rem with
    | .error e => .error e
    | .ok (true, r) =>
      match CheckZM hz hm zm r with
      | .error e => .error e
      | .ok ((hz1, hm1, zm1), r1) =>
        match ParseMultiPoint hz1 hm1 fuel r1 with
        | .error e => .error e
        | .ok (m, r2) => .ok ((.multipoint m, hz1, hm1, zm1), r2)
    | .ok (false, _) =>
    match MatchCI "MULTILINESTRING" rem with
    | .error e => .error e
    | .ok (true, r) =>
      match CheckZM hz hm zm r with
      | .error e => .error e
      | .ok ((hz1, hm1, zm1), r1) =>
        match ParseMultiLineString hz1 hm1 fuel r1 with
        | .error e => .error e
        | .ok (m, r2) => .ok ((.multilinestring m, hz1, hm1, zm1), r2)
    | .ok (false, _) =>
    match MatchCI "MULTIPOLYGON" rem with
    | .error e => .error e
    | .ok (true, r) =>
      match CheckZM hz hm zm r with
      | .error e => .error e
      | .ok ((hz1, hm1, zm1), r1) =>
        match ParseMultiPolygon hz1 hm1 fuel r1 with
        | .error e => .error e
        | .ok (m, r2) => .ok ((.multipolygon m, hz1, hm1, zm1), r2)
    | .ok (false, _) =>
    match MatchCI "GEOMETRYCOLLECTION" rem with
    | .error e => .error e
    | .ok (true, r) =>
      match CheckZM hz hm zm r with
      | .error e => .error e
      | .ok ((hz1, hm1, zm1), r1) => ParseGeometryCollection fuel hz1 hm1 zm1 r1
    | .ok (false, _) =>
      .error (.unknownType (String.mk (ParseWordGo rem).1) rem)

/-- `WKTReader::ParseGeometryCollection`: `EMPTY`, or a parenthesized
comma-list of recursively parsed geometries. -/
def ParseGeometryCollection : Nat → Bool → Bool → Bool → List Char →
    Except Failure ((Geometry × Bool × Bool × Bool) × List Char)
  | 0, _, _, _, _ => .error .outOfFuel
  | fuel+1, hz, hm, zm, rem =>
    match MatchCI "EMPTY" rem with
    | .error e => .error e
    | .ok (true, r) => .ok ((.geometrycollection hz hm .nil, hz, hm, zm), r)
    | .ok (false, _) =>
      match Expect '(' rem with
      | .error e => .error e
      | .ok r =>
        match ParseGeometry fuel hz hm zm r with
        | .error e => .error e
        | .ok ((g, hz1, hm1, zm1), r1) =>
          match ParseGeometryCollectionLoop fuel hz1 hm1 zm1 r1 [g] with
          | .error e => .error e
          | .ok ((gs, hz2, hm2, zm2), r2) =>
            match Expect ')' r2 with
            | .error e => .error e
            | .ok r3 =>
              .ok ((.geometrycollection hz2 hm2 (GeometryList.ofList gs), hz2, hm2, zm2), r3)

/-- The child loop of `WKTReader::ParseGeometryCollection`. -/
def ParseGeometryCollectionLoop : Nat → Bool → Bool → Bool → List Char → List Geometry →
    Except Failure ((List Geometry × Bool × Bool × Bool) × List Char)
  | 0, _, _, _, _, _ => .error .outOfFuel
  | fuel+1, hz, hm, zm, rem, acc =>
    match Match ',' rem with
    | .error e => .error e
    | .ok (true, r) =>
      match ParseGeometry fuel hz hm zm r with
      | .error e => .error e
      | .ok ((g, hz1, hm1, zm1), r1) =>
        ParseGeometryCollectionLoop fuel hz1 hm1 zm1 r1 (acc ++ [g])
    | .ok (false, _) => .ok ((acc, hz, hm, zm), rem)
end

/-- `while (cursor < end && *cursor != ';') cursor++` in `ParseWKT`. -/
def SkipToSemicolon : List Char → List Char
  | [] => []
  | c :: r => if c = ';' then c :: r else SkipToSemicolon r

/-- `WKTReader::ParseWKT`: recognize and discard an `SRID...;` prefix, then
parse the geometry. -/
def ParseWKT (fuel : Nat) (hz hm zm : Bool) (rem : List Char) :
    Except Failure ((Geometry × Bool × Bool × Bool) × List Char) :=
  match MatchCI "SRID" rem with
  | .error e => .error e
  | .ok (true, r) =>
    match Expect ';' (SkipToSemicolon r) with
    | .error e => .error e
    | .ok r2 => ParseGeometry fuel hz hm zm (SkipWhitespace r2)
  | .ok (false, _) => ParseGeometry fuel hz hm zm rem

/-- `WKTReader::GetErrorContext`: the byte offset `cursor - start` and the
context window `[max(cursor-32, start), min(cursor+1, end))`, preceded by
`...` when truncated on the left. -/
def ErrorContextOf (full remAt : List Char) : Nat × String :=
  let i := full.length - remAt.length
  let s := i - 32
  let e := min (i + 1) full.length
  let core := String.mk ((full.drop s).take (e - s))
  (i, if s ≠ 0 then "..." ++ core else core)

/-- The string `GetErrorContext` returns, given the offset and the window. -/
def RenderContext (off : Nat) (ctx : String) : String :=
  "at position " ++ toString off ++ " near: '" ++ ctx ++ "'|<---"

/-- The caller-visible outcome of a parse failure: the
`InvalidInputException` message with its offset and context, the
undefined-behaviour marker, or the fuel artifact. -/
inductive ParseError where
  | raised (message : String) (offset : Nat) (context : String)
  | oobRead (offset : Nat)
  | outOfFuel
deriving DecidableEq, Repr

/-- Render an internal failure against the full input, concatenating the
per-site message text with `GetErrorContext()` exactly as the source does. -/
def RenderFailure (full : List Char) : Failure → ParseError
  | .expectedChar c remAt =>
    let p := ErrorContextOf full remAt
    .raised ("WKT Parser: Expected character '" ++ String.singleton c ++ "' "
      ++ RenderContext p.1 p.2) p.1 p.2
  | .expectedDouble remAt =>
    let p := ErrorContextOf full remAt
    .raised ("WKT Parser: Expected double " ++ RenderContext p.1 p.2) p.1 p.2
  | .unknownType w remAt =>
    let p := ErrorContextOf full remAt
    .raised ("WKT Parser: Unknown geometry type '" ++ w ++ "' "
      ++ RenderContext p.1 p.2) p.1 p.2
  | .mixedZM remAt =>
    let p := ErrorContextOf full remAt
    .raised ("WKT Parser: GeometryCollection with mixed Z and M types are not supported, mismatch "
      ++ RenderContext p.1 p.2) p.1 p.2
  | .oobRead remAt => .oobRead (full.length - remAt.length)
  | .outOfFuel => .outOfFuel

/-- `WKTReader::Parse(string_t)`: reset the reader state over the whole input
and run `ParseWKT`; trailing input after the geometry is ignored. -/
def Parse (wkt : String) : Except ParseError Geometry :=
  let full := wkt.data
  match ParseWKT (full.length + 1) false false false full with
  | .ok ((g, _, _, _), _) => .ok g
  | .error e => .error (RenderFailure full e)

end WKTReader

/-! ## Binary codec (`geometry_t`)

Modelled from the spec: the Binary Codec of §4.5 ("Serialize: write a compact
tag (geometry kind + dimension flags) followed by a kind-specific payload:
counts are written before the data they size ..., and vertex data is written
as packed doubles in declared dimensionality order (x, y, [z], [m]). Nested
composites recurse; the byte layout is a pre-order traversal of the tree.").
The codec implementation (`GeometryFactory::Serialize` / `Deserialize`) is not
among the provided sources — only its callers are — so the field stream is
embedded as a list of typed fields (`SerTok`) rather than raw bytes: a tag, a
count, or one packed coordinate. -/

/-- The source's `GeometryType` enumeration (the seven shape kinds). -/
inductive GeometryType where
  | POINT
  | LINESTRING
  | POLYGON
  | MULTIPOINT
  | MULTILINESTRING
  | MULTIPOLYGON
  | GEOMETRYCOLLECTION
deriving DecidableEq, Repr

/-- Modelled from the spec: one field of the serialized `geometry_t` stream —
a compact tag (kind + dimension flags), a count written before the data it
sizes, or one packed coordinate double. -/
inductive SerTok where
  | tag (t : GeometryType) (has_z has_m : Bool)
  | cnt (n : Nat)
  | num (x : Rat)
deriving DecidableEq, Repr

/-- Coordinates per vertex in the declared dimensionality. -/
def dimOf (hz hm : Bool) : Nat := 2 + (if hz then 1 else 0) + (if hm then 1 else 0)

/-- Packed vertex data: every tuple's doubles in `x, y, [z], [m]` order. -/
def serVertexData (verts : List Vertex) : List SerTok :=
  (verts.map (fun v => v.map SerTok.num)).flatten

/-- Ring / vertex-array payload: the vertex count, then the packed data. -/
def serRing (r : VertexArray) : List SerTok :=
  .cnt r.verts.length :: serVertexData r.verts

/-- A serialized `Point`: tag, then its vertex-array payload. -/
def serPoint (p : Point) : List SerTok :=
  .tag .POINT p.va.has_z p.va.has_m :: serRing p.va

/-- A serialized `LineString`. -/
def serLineString (l : LineString) : List SerTok :=
  .tag .LINESTRING l.va.has_z l.va.has_m :: serRing l.va

/-- A serialized `Polygon`: tag, ring count, then the rings in order. -/
def serPolygon (p : Polygon) : List SerTok :=
  .tag .POLYGON p.has_z p.has_m :: .cnt p.rings.length :: (p.rings.map serRing).flatten

/-- The length of a collection's child list. -/
def GeometryList.length : GeometryList → Nat
  | .nil => 0
  | .cons _ tl => tl.length + 1

mutual
/-- Modelled from the spec: `GeometryFactory::Serialize` as the pre-order
field stream of §4.5. -/
def Geometry.serialize : Geometry → List SerTok
  | .point p => serPoint p
  | .linestring l => serLineString l
  | .polygon p => serPolygon p
  | .multipoint m =>
    .tag .MULTIPOINT m.has_z m.has_m :: .cnt m.points.length :: (m.points.map serPoint).flatten
  | .multilinestring m =>
    .tag .MULTILINESTRING m.has_z m.has_m :: .cnt m.lines.length ::
      (m.lines.map serLineString).flatten
  | .multipolygon m =>
    .tag .MULTIPOLYGON m.has_z m.has_m :: .cnt m.polygons.length ::
      (m.polygons.map serPolygon).flatten
  | .geometrycollection z m gs =>
    .tag .GEOMETRYCOLLECTION z m :: .cnt gs.length :: GeometryList.serialize gs
/-- The concatenated serializations of a collection's children. -/
def GeometryList.serialize : GeometryList → List SerTok
  | .nil => []
  | .cons g tl => Geometry.serialize g ++ GeometryList.serialize tl
end

/-- Read `n` packed coordinates. -/
def desNums : Nat → List SerTok → Option (List Rat × List SerTok)
  | 0, toks => some ([], toks)
  | n+1, .num x :: toks =>
    match desNums n toks with
    | some (xs, r) => some (x :: xs, r)
    | none => none
  | _+1, _ => none

/-- Read `n` vertices of `dim` coordinates each. -/
def desVerts (dim : Nat) : Nat → List SerTok → Option (List Vertex × List SerTok)
  | 0, toks => some ([], toks)
  | n+1, toks =>
    match desNums dim toks with
    | some (v, r) =>
      match desVerts dim n r with
      | some (vs, r2) => some (v :: vs, r2)
      | none => none
    | none => none

/-- Read one ring / vertex-array payload in the declared dimensionality. -/
def desRing (hz hm : Bool) : List SerTok → Option (VertexArray × List SerTok)
  | .cnt n :: toks =>
    match desVerts (dimOf hz hm) n toks with
    | some (vs, r) => some (⟨hz, hm, vs⟩, r)
    | none => none
  | _ => none

/-- Read `n` ring payloads. -/
def desRings (hz hm : Bool) : Nat → List SerTok → Option (List VertexArray × List SerTok)
  | 0, toks => some ([], toks)
  | n+1, toks =>
    match desRing hz hm toks with
    | some (va, r) =>
      match desRings hz hm n r with
      | some (vas, r2) => some (va :: vas, r2)
      | none => none
    | none => none

/-- Read one serialized `Point` (tag checked: tag-inconsistent input is a
decode error). -/
def desPoint : List SerTok → Option (Point × List SerTok)
  | .tag .POINT hz hm :: toks =>
    match desRing hz hm toks with
    | some (va, r) => some (⟨va⟩, r)
    | none => none
  | _ => none

/-- Read `n` serialized points. -/
def desPoints : Nat → List SerTok → Option (List Point × List SerTok)
  | 0, toks => some ([], toks)
  | n+1, toks =>
    match desPoint toks with
    | some (p, r) =>
      match desPoints n r with
      | some (ps, r2) => some (p :: ps, r2)
      | none => none
    | none => none

/-- Read one serialized `LineString`. -/
def desLineString : List SerTok → Option (LineString × List SerTok)
  | .tag .LINESTRING hz hm :: toks =>
    match desRing hz hm toks with
    | some (va, r) => some (⟨va⟩, r)
    | none => none
  | _ => none

/-- Read `n` serialized line strings. -/
def desLineStrings : Nat → List SerTok → Option (List LineString × List SerTok)
  | 0, toks => some ([], toks)
  | n+1, toks =>
    match desLineString toks with
    | some (l, r) =>
      match desLineStrings n r with
      | some (ls, r2) => some (l :: ls, r2)
      | none => none
    | none => none

/-- Read one serialized `Polygon`. -/
def desPolygon : List SerTok → Option (Polygon × List SerTok)
  | .tag .POLYGON hz hm :: .cnt n :: toks =>
    match desRings hz hm n toks with
    | some (rs, r) => some (⟨hz, hm, rs⟩, r)
    | none => none
  | _ => none

/-- Read `n` serialized polygons. -/
def desPolygons : Nat → List SerTok → Option (List Polygon × List SerTok)
  | 0, toks => some ([], toks)
  | n+1, toks =>
    match desPolygon toks with
    | some (p, r) =>
      match desPolygons n r with
      | some (ps, r2) => some (p :: ps, r2)
      | none => none
    | none => none

mutual
/-- Modelled from the spec: `GeometryFactory::Deserialize` — read the same
fields in the same order, rejecting truncated or tag-inconsistent input
(`none`). Fuel makes the nested-collection recursion total. -/
def Geometry.deserialize : Nat → List SerTok → Option (Geometry × List SerTok)
  | 0, _ => none
  | fuel+1, toks =>
    match toks with
    | .tag .POINT hz hm :: r =>
      match desRing hz hm r with
      | some (va, r2) => some (.point ⟨va⟩, r2)
      | none => none
    | .tag .LINESTRING hz hm :: r =>
      match desRing hz hm r with
      | some (va, r2) => some (.linestring ⟨va⟩, r2)
      | none => none
    | .tag .POLYGON hz hm :: .cnt n :: r =>
      match desRings hz hm n r with
      | some (rs, r2) => some (.polygon ⟨hz, hm, rs⟩, r2)
      | none => none
    | .tag .MULTIPOINT hz hm :: .cnt n :: r =>
      match desPoints n r with
      | some (ps, r2) => some (.multipoint ⟨hz, hm, ps⟩, r2)
      | none => none
    | .tag .MULTILINESTRING hz hm :: .cnt n :: r =>
      match desLineStrings n r with
      | some (ls, r2) => some (.multilinestring ⟨hz, hm, ls⟩, r2)
      | none => none
    | .tag .MULTIPOLYGON hz hm :: .cnt n :: r =>
      match desPolygons n r with
      | some (ps, r2) => some (.multipolygon ⟨hz, hm, ps⟩, r2)
      | none => none
    | .tag .GEOMETRYCOLLECTION hz hm :: .cnt n :: r =>
      match GeometryList.deserialize fuel n r with
      | some (gs, r2) => some (.geometrycollection hz hm gs, r2)
      | none => none
    | _ => none
/-- Read `n` serialized child geometries. -/
def GeometryList.deserialize : Nat → Nat → List SerTok → Option (GeometryList × List SerTok)
  | 0, _, _ => none
  | _+1, 0, toks => some (.nil, toks)
  | fuel+1, n+1, toks =>
    match Geometry.deserialize fuel toks with
    | some (g, r) =>
      match GeometryList.deserialize fuel n r with
      | some (gs, r2) => some (.cons g gs, r2)
      | none => none
    | none => none
end

/-- Modelled from the spec: deserialize one whole `geometry_t` stream; the
self-describing blob holds exactly one geometry, so trailing fields are a
decode error. -/
def Deserialize (toks : List SerTok) : Option Geometry :=
  match Geometry.deserialize (toks.length + 1) toks with
  | some (g, []) => some g
  | _ => none

/-- A vertex array whose tuples all have the width its own flags declare. -/
def VertexArray.wfLen (v : VertexArray) : Bool :=
  v.verts.all (fun vx => vx.length == dimOf v.has_z v.has_m)

/-- A polygon whose rings carry the polygon's flags and consistent tuples. -/
def Polygon.wfPoly (p : Polygon) : Bool :=
  p.rings.all (fun r => r.has_z == p.has_z && r.has_m == p.has_m && r.wfLen)

mutual
/-- The codec's validity invariant (§3): every vertex tuple has the width its
node's dimension flags declare, and a polygon's rings carry the polygon's
flags. Any tree valid in the spec's sense (uniform flags, consistent tuple
widths) satisfies this. -/
def Geometry.wf : Geometry → Bool
  | .point p => p.va.wfLen
  | .linestring l => l.va.wfLen
  | .polygon p => p.wfPoly
  | .multipoint m => m.points.all (fun p => p.va.wfLen)
  | .multilinestring m => m.lines.all (fun l => l.va.wfLen)
  | .multipolygon m => m.polygons.all Polygon.wfPoly
  | .geometrycollection _ _ gs => gs.wf
/-- `Geometry.wf` over a child list. -/
def GeometryList.wf : GeometryList → Bool
  | .nil => true
  | .cons g tl => g.wf && tl.wf
end

/-! ## Bounding box (§4.6, modelled from the spec)

The bounding-box fold is not among the provided sources; modelled from the
spec: "Pure recursive fold over the tree returning the running per-axis
min/max; empty leaves contribute nothing; an all-empty tree yields a box
explicitly marked empty/invalid rather than a zeroed box." The
empty/invalid marking is `Option.none`. -/

/-- Axis-aligned extent: min/max per axis (XY part). -/
structure BoundingBox where
  minx : Rat
  miny : Rat
  maxx : Rat
  maxy : Rat
deriving DecidableEq, Repr

/-- Kernel-computable minimum on `Rat`. -/
def rmin (a b : Rat) : Rat := if Rat.blt a b then a else b

/-- Kernel-computable maximum on `Rat`. -/
def rmax (a b : Rat) : Rat := if Rat.blt a b then b else a

/-- Fold one vertex into the running box. -/
def bboxAddVertex (b : Option BoundingBox) (v : Vertex) : Option BoundingBox :=
  let x := v.getD 0 0
  let y := v.getD 1 0
  match b with
  | none => some ⟨x, y, x, y⟩
  | some bb => some ⟨rmin bb.minx x, rmin bb.miny y, rmax bb.maxx x, rmax bb.maxy y⟩

/-- Fold a vertex array into the running box. -/
def VertexArray.bboxFold (va : VertexArray) (b : Option BoundingBox) : Option BoundingBox :=
  va.verts.foldl bboxAddVertex b

mutual
/-- Modelled from the spec: the recursive bounding-box fold of §4.6. -/
def Geometry.bboxFold : Geometry → Option BoundingBox → Option BoundingBox
  | .point p, b => p.va.bboxFold b
  | .linestring l, b => l.va.bboxFold b
  | .polygon p, b => p.rings.foldl (fun acc r => r.bboxFold acc) b
  | .multipoint m, b => m.points.foldl (fun acc p => p.va.bboxFold acc) b
  | .multilinestring m, b => m.lines.foldl (fun acc l => l.va.bboxFold acc) b
  | .multipolygon m, b =>
    m.polygons.foldl (fun acc p => p.rings.foldl (fun a r => r.bboxFold a) acc) b
  | .geometrycollection _ _ gs, b => GeometryList.bboxFold gs b
/-- The bounding-box fold over a child list. -/
def GeometryList.bboxFold : GeometryList → Option BoundingBox → Option BoundingBox
  | .nil, b => b
  | .cons g tl, b => GeometryList.bboxFold tl (g.bboxFold b)
end

/-- The derived bounding box of a geometry: `none` marks the empty/invalid
box of an all-empty tree. -/
def Geometry.bbox (g : Geometry) : Option BoundingBox := g.bboxFold none

/-! ## `ST_TileEnvelope` (`TileEnvelopeFunction`, st_tileenvelope.cpp lines 14-43) -/

/-- Modelled from the spec: `GeometryFactory::TryGetSerializedBoundingBox` —
the bounding box carried by / derivable from a serialized geometry (the
factory implementation is not among the provided sources; the tile-envelope
code discards its result either way). -/
def TryGetSerializedBoundingBox (blob : List SerTok) : Option BoundingBox :=
  match Deserialize blob with
  | some g => g.bbox
  | none => none

/-- `VertexArray::Set(i, x, y)`: in-place write of vertex `i` of an XY array. -/
def VertexArray.Set2 (v : VertexArray) (i : Nat) (x y : Rat) : VertexArray :=
  ⟨v.has_z, v.has_m, v.verts.set i [x, y]⟩

/-- The per-row body of `TileEnvelopeFunction`: extract the bounding box of
the `bounds` argument (the source tests the result with an empty `if` body
and never uses it), build an XY polygon with one pre-sized 5-vertex ring,
set all five vertices to `(0, 0)`, and serialize it. `x`, `y`, `z` are the
`uint8_t` tile coordinates. -/
def TileEnvelopeFunction (x y z : Nat) (bounds : List SerTok) : List SerTok :=
  let _bbox := TryGetSerializedBoundingBox bounds
  let capacity : Nat := 5
  let shell0 : VertexArray := ⟨false, false, List.replicate capacity [0, 0]⟩
  let shell := ((((shell0.Set2 0 0 0).Set2 1 0 0).Set2 2 0 0).Set2 3 0 0).Set2 4 0 0
  let envelope_geom : Polygon := ⟨false, false, [shell]⟩
  Geometry.serialize (.polygon envelope_geom)

/-! ## `ST_Area_Spheroid`, geometry variant (`PolygonArea`, st_tileenvelope.cpp
second compilation unit, lines 142-165)

The area itself is computed by GeographicLib (an external collaborator); what
is embedded is the index arithmetic of the coordinate loop
`for (uint32_t coord_idx = 0; coord_idx < ring.Count() - 1; coord_idx++)`,
whose bound is computed in `uint32_t` arithmetic. -/

/-- `uint32_t` subtraction `a - b` (wrapping), for `b ≤ 2^32`. -/
def u32sub (a b : Nat) : Nat := (a % 2 ^ 32 + (2 ^ 32 - b % 2 ^ 32)) % 2 ^ 32

/-- The loop bound `ring.Count() - 1` of `PolygonArea`, as the `uint32_t`
hardware computes it. -/
def PolygonAreaLoopBound (r : VertexArray) : Nat := u32sub r.Count 1

/-- The coordinate loop of `PolygonArea` touches only in-range vertex
indices: for every ring, every index below the loop bound is below the
ring's vertex count. -/
def PolygonAreaAccessSafe (p : Polygon) : Prop :=
  ∀ r ∈ p.rings, ∀ i, i < PolygonAreaLoopBound r → i < r.Count

/-- Comma-join of token chunks (the vertex list of a `MULTIPOINT` body). -/
def JoinComma : List (List Char) → List Char
  | [] => []
  | [t] => t
  | t :: ts => t ++ ',' :: JoinComma ts

/-- Wrap one chunk in parentheses (the optional per-vertex parens of a
`MULTIPOINT` body). -/
def ParenWrap (t : List Char) : List Char := '(' :: (t ++ [')'])

/-- The multipoint tree built from one vertex per member, as
`WKTReader::ParseMultiPoint` builds it in the XY case. -/
def MultiPointOf (cs : List Vertex) : Geometry :=
  .multipoint ⟨false, false, cs.map (fun c => ⟨⟨false, false, [c]⟩⟩)⟩

/-- The localization property a `MULTIPOINT` member chunk `t` with value `c`
has: followed by a comma or a closing paren and anything, `ParseVertex`
consumes exactly `t` and returns `c`. -/
def VertexChunk (t : List Char) (c : Vertex) : Prop :=
  ∀ (ch : Char) (r : List Char), ch = ',' ∨ ch = ')' →
    WKTReader.ParseVertex false false (t ++ ch :: r) = .ok (c, ch :: r)

/-- The remainder a `MULTIPOINT` member loop sees between items: either the
closing paren, or a comma followed by the comma-join of the chunks still to
come and the closing paren. -/
def MPRest (ts : List (List Char)) (tail : List Char) : List Char :=
  match ts with
  | [] => ')' :: tail
  | _ => ',' :: (JoinComma ts ++ ')' :: tail)

/-! ## Theorems -/

/-- C3 counterexample: the parser performs no closure check — the input
`POLYGON((0 0,1 0,1 1))`, whose single ring is written with first vertex
`(0,0)` and last vertex `(1,1)`, is accepted, and the resulting polygon has
a non-empty ring whose first vertex differs from its last. -/
theorem c3_unclosed_ring_accepted :
    WKTReader.Parse "POLYGON((0 0,1 0,1 1))" =
      .ok (.polygon ⟨false, false, [⟨false, false, [[0, 0], [1, 0], [1, 1]]⟩]⟩) ∧
    Geometry.ringsClosed (.polygon ⟨false, false, [⟨false, false, [[0, 0], [1, 0], [1, 1]]⟩]⟩)
      = false := by
  constructor
  · decide
  · decide

/-- C3 amended: a parsed ring holds exactly the vertices written in the
input — the parser does not enforce logical closure, so a ring is closed
precisely when the input writes it closed: `POLYGON((0 0,4 0,4 4,0 4,0 0))`
yields the verbatim closed ring, while `POLYGON((0 0,1 0,1 1))` (see the
counterexample) yields the verbatim unclosed one. -/
theorem c3_ring_closed_iff_written_closed :
    WKTReader.Parse "POLYGON((0 0,4 0,4 4,0 4,0 0))" =
      .ok (.polygon ⟨false, false,
        [⟨false, false, [[0, 0], [4, 0], [4, 4], [0, 4], [0, 0]]⟩]⟩) ∧
    Geometry.ringsClosed (.polygon ⟨false, false,
      [⟨false, false, [[0, 0], [4, 0], [4, 4], [0, 4], [0, 0]]⟩]⟩) = true := by
  constructor
  · decide
  · decide

/-- C7: `POLYGON EMPTY` parses to a polygon with zero rings, and the derived
bounding box of that polygon is the empty/invalid marker `none`, not a zero
box. -/
theorem c7_polygon_empty_zero_rings_empty_bbox :
    WKTReader.Parse "POLYGON EMPTY" = .ok (.polygon ⟨false, false, []⟩) ∧
    (Polygon.RingCount ⟨false, false, []⟩ = 0) ∧
    Geometry.bbox (.polygon ⟨false, false, []⟩) = none := by
  refine ⟨by decide, rfl, rfl⟩

/-- C8: on the five-byte input `POINT` — which ends immediately after the
keyword — `WKTReader::Parse` dereferences the cursor at offset 5, which is
`end`: the `Match('Z')` call inside `CheckZM` reads `*cursor` without a
bounds check. The parse reaches undefined behaviour instead of staying
within `[start, end)`. -/
theorem c8_parse_point_reads_past_end :
    WKTReader.Parse "POINT" = .error (.oobRead 5) ∧ "POINT".data.length = 5 := by
  constructor
  · decide
  · decide

/-- C2 counterexample: the claim's example `GEOMETRYCOLLECTION(POINT Z(1 2 3),
POINT Z(4 5 6))` does not succeed: the collection keyword itself carries no
`Z`/`M` suffix, so the first keyword fixes the reader to XY, and the first
`POINT Z` child already raises the mismatch error. -/
theorem c2_uniform_z_collection_rejected :
    WKTReader.Parse "GEOMETRYCOLLECTION(POINT Z(1 2 3), POINT Z(4 5 6))" =
      .error (.raised
        "WKT Parser: GeometryCollection with mixed Z and M types are not supported, mismatch at position 26 near: 'GEOMETRYCOLLECTION(POINT Z('|<---"
        26 "GEOMETRYCOLLECTION(POINT Z(") := by
  decide

/-- C10: `PolygonArea` of `ST_Area_Spheroid` computes its coordinate loop
bound as the `uint32_t` expression `ring.Count() - 1`; on the ring with zero
vertices of the accepted input `POLYGON(EMPTY)` the bound wraps to
`4294967295`, so the loop accesses index 0 (and beyond) of a ring whose
count is 0 — out of range. -/
theorem c10_area_loop_bound_wraps :
    WKTReader.Parse "POLYGON(EMPTY)" =
      .ok (.polygon ⟨false, false, [⟨false, false, []⟩]⟩) ∧
    PolygonAreaLoopBound ⟨false, false, []⟩ = 4294967295 ∧
    ¬ PolygonAreaAccessSafe ⟨false, false, [⟨false, false, []⟩]⟩ := by
  refine ⟨by decide, by decide, fun h => ?_⟩
  have h0 := h ⟨false, false, []⟩ (by simp) 0 (by decide)
  simp [VertexArray.Count] at h0

/-- C9: the per-row body of `ST_TileEnvelope` is independent of all four
arguments (the bounding box extracted from `bounds` is discarded), and it
always returns the serialization of the XY polygon with exactly one ring of
five vertices, each `(0, 0)`; deserializing the returned blob exhibits that
tree. -/
theorem c9_tile_envelope_constant :
    (∀ x y z b x2 y2 z2 b2,
      TileEnvelopeFunction x y z b = TileEnvelopeFunction x2 y2 z2 b2) ∧
    (∀ x y z b, TileEnvelopeFunction x y z b =
      Geometry.serialize (.polygon ⟨false, false,
        [⟨false, false, [[0, 0], [0, 0], [0, 0], [0, 0], [0, 0]]⟩]⟩)) ∧
    Deserialize (TileEnvelopeFunction 0 0 0 []) =
      some (.polygon ⟨false, false,
        [⟨false, false, [[0, 0], [0, 0], [0, 0], [0, 0], [0, 0]]⟩]⟩) := by
  refine ⟨fun x y z b x2 y2 z2 b2 => rfl, fun x y z b => rfl, by decide⟩

/-! ### C1: codec round trip -/

theorem desNums_append (v : List Rat) (rest : List SerTok) :
    desNums v.length (v.map SerTok.num ++ rest) = some (v, rest) := by
  induction v with
  | nil => rfl
  | cons x xs ih => simp [desNums, ih]

theorem desVerts_append (dim : Nat) (vs : List Vertex) (rest : List SerTok)
    (h : ∀ v ∈ vs, v.length = dim) :
    desVerts dim vs.length (serVertexData vs ++ rest) = some (vs, rest) := by
  induction vs with
  | nil => rfl
  | cons v vs ih =>
    have hv : v.length = dim := h v (by simp)
    have hrest : ∀ w ∈ vs, w.length = dim := fun w hw => h w (by simp [hw])
    have h2 : desNums dim (v.map SerTok.num ++ (serVertexData vs ++ rest))
        = some (v, serVertexData vs ++ rest) := by
      rw [← hv]; exact desNums_append v _
    have h1 : serVertexData (v :: vs) ++ rest
        = v.map SerTok.num ++ (serVertexData vs ++ rest) := by
      simp [serVertexData]
    rw [h1]
    show desVerts dim (vs.length + 1) _ = _
    rw [desVerts, h2]
    simp [ih hrest]

theorem desRing_serRing (hz hm : Bool) (r : VertexArray) (rest : List SerTok)
    (hfz : r.has_z = hz) (hfm : r.has_m = hm) (hlen : r.wfLen = true) :
    desRing hz hm (serRing r ++ rest) = some (r, rest) := by
  have hl : ∀ v ∈ r.verts, v.length = dimOf hz hm := by
    intro v hv
    have hb := (List.all_eq_true.mp hlen) v hv
    have h4 : v.length = dimOf r.has_z r.has_m := by
      exact beq_iff_eq.mp hb
    rw [hfz, hfm] at h4
    exact h4
  show desRing hz hm (.cnt r.verts.length :: (serVertexData r.verts ++ rest)) = _
  rw [desRing, desVerts_append _ _ _ hl]
  subst hfz hfm
  rfl

theorem desPoint_serPoint (p : Point) (rest : List SerTok) (h : p.va.wfLen = true) :
    desPoint (serPoint p ++ rest) = some (p, rest) := by
  show desPoint (.tag .POINT p.va.has_z p.va.has_m :: (serRing p.va ++ rest)) = _
  rw [desPoint, desRing_serRing _ _ _ _ rfl rfl h]

theorem desLineString_serLineString (l : LineString) (rest : List SerTok)
    (h : l.va.wfLen = true) :
    desLineString (serLineString l ++ rest) = some (l, rest) := by
  show desLineString (.tag .LINESTRING l.va.has_z l.va.has_m :: (serRing l.va ++ rest)) = _
  rw [desLineString, desRing_serRing _ _ _ _ rfl rfl h]

theorem desRings_append (hz hm : Bool) (rs : List VertexArray) (rest : List SerTok)
    (h : ∀ r ∈ rs, r.has_z = hz ∧ r.has_m = hm ∧ r.wfLen = true) :
    desRings hz hm rs.length ((rs.map serRing).flatten ++ rest) = some (rs, rest) := by
  induction rs with
  | nil => rfl
  | cons r rs ih =>
    obtain ⟨h1, h2, h3⟩ := h r (by simp)
    have hrest : ∀ w ∈ rs, w.has_z = hz ∧ w.has_m = hm ∧ w.wfLen = true :=
      fun w hw => h w (by simp [hw])
    show desRings hz hm (rs.length + 1)
        ((serRing r ++ (rs.map serRing).flatten) ++ rest) = _
    rw [List.append_assoc, desRings, desRing_serRing _ _ _ _ h1 h2 h3]
    simp [ih hrest]

theorem desPolygon_serPolygon (p : Polygon) (rest : List SerTok)
    (h : p.wfPoly = true) :
    desPolygon (serPolygon p ++ rest) = some (p, rest) := by
  have hr : ∀ r ∈ p.rings, r.has_z = p.has_z ∧ r.has_m = p.has_m ∧ r.wfLen = true := by
    intro r hrr
    have := (List.all_eq_true.mp h) r hrr
    simp only [Bool.and_eq_true, beq_iff_eq] at this
    exact ⟨this.1.1, this.1.2, this.2⟩
  show desPolygon (.tag .POLYGON p.has_z p.has_m :: .cnt p.rings.length ::
      ((p.rings.map serRing).flatten ++ rest)) = _
  rw [desPolygon, desRings_append _ _ _ _ hr]

theorem desPoints_append (ps : List Point) (rest : List SerTok)
    (h : ∀ p ∈ ps, p.va.wfLen = true) :
    desPoints ps.length ((ps.map serPoint).flatten ++ rest) = some (ps, rest) := by
  induction ps with
  | nil => rfl
  | cons p ps ih =>
    show desPoints (ps.length + 1) ((serPoint p ++ (ps.map serPoint).flatten) ++ rest) = _
    rw [List.append_assoc, desPoints, desPoint_serPoint _ _ (h p (by simp))]
    simp [ih (fun w hw => h w (by simp [hw]))]

theorem desLineStrings_append (ls : List LineString) (rest : List SerTok)
    (h : ∀ l ∈ ls, l.va.wfLen = true) :
    desLineStrings ls.length ((ls.map serLineString).flatten ++ rest) = some (ls, rest) := by
  induction ls with
  | nil => rfl
  | cons l ls ih =>
    show desLineStrings (ls.length + 1)
        ((serLineString l ++ (ls.map serLineString).flatten) ++ rest) = _
    rw [List.append_assoc, desLineStrings, desLineString_serLineString _ _ (h l (by simp))]
    simp [ih (fun w hw => h w (by simp [hw]))]

theorem desPolygons_append (ps : List Polygon) (rest : List SerTok)
    (h : ∀ p ∈ ps, p.wfPoly = true) :
    desPolygons ps.length ((ps.map serPolygon).flatten ++ rest) = some (ps, rest) := by
  induction ps with
  | nil => rfl
  | cons p ps ih =>
    show desPolygons (ps.length + 1)
        ((serPolygon p ++ (ps.map serPolygon).flatten) ++ rest) = _
    rw [List.append_assoc, desPolygons, desPolygon_serPolygon _ _ (h p (by simp))]
    simp [ih (fun w hw => h w (by simp [hw]))]

theorem serialize_length_pos (g : Geometry) : 1 ≤ (Geometry.serialize g).length := by
  cases g <;> simp [Geometry.serialize, serPoint, serLineString, serPolygon]

theorem roundtrip_main : ∀ fuel : Nat,
    (∀ (g : Geometry) (rest : List SerTok), g.wf = true →
      (Geometry.serialize g).length < fuel →
      Geometry.deserialize fuel (Geometry.serialize g ++ rest) = some (g, rest)) ∧
    (∀ (gs : GeometryList) (rest : List SerTok), gs.wf = true →
      (GeometryList.serialize gs).length + 1 < fuel →
      GeometryList.deserialize fuel gs.length (GeometryList.serialize gs ++ rest)
        = some (gs, rest)) := by
  intro fuel
  induction fuel with
  | zero => exact ⟨fun g rest _ h => absurd h (by omega), fun gs rest _ h => absurd h (by omega)⟩
  | succ k ih =>
    constructor
    · intro g rest hwf hlen
      cases g with
      | point p =>
        show Geometry.deserialize (k+1)
          (.tag .POINT p.va.has_z p.va.has_m :: (serRing p.va ++ rest)) = _
        rw [Geometry.deserialize, desRing_serRing _ _ _ _ rfl rfl hwf]
      | linestring l =>
        show Geometry.deserialize (k+1)
          (.tag .LINESTRING l.va.has_z l.va.has_m :: (serRing l.va ++ rest)) = _
        rw [Geometry.deserialize, desRing_serRing _ _ _ _ rfl rfl hwf]
      | polygon p =>
        have hr : ∀ r ∈ p.rings, r.has_z = p.has_z ∧ r.has_m = p.has_m ∧ r.wfLen = true := by
          intro r hrr
          have := (List.all_eq_true.mp hwf) r hrr
          simp only [Bool.and_eq_true, beq_iff_eq] at this
          exact ⟨this.1.1, this.1.2, this.2⟩
        show Geometry.deserialize (k+1) (.tag .POLYGON p.has_z p.has_m ::
          .cnt p.rings.length :: ((p.rings.map serRing).flatten ++ rest)) = _
        rw [Geometry.deserialize, desRings_append _ _ _ _ hr]
      | multipoint m =>
        have hp : ∀ p ∈ m.points, p.va.wfLen = true := by
          intro p hpp
          exact (List.all_eq_true.mp hwf) p hpp
        show Geometry.deserialize (k+1) (.tag .MULTIPOINT m.has_z m.has_m ::
          .cnt m.points.length :: ((m.points.map serPoint).flatten ++ rest)) = _
        rw [Geometry.deserialize, desPoints_append _ _ hp]
      | multilinestring m =>
        have hp : ∀ l ∈ m.lines, l.va.wfLen = true := by
          intro l hll
          exact (List.all_eq_true.mp hwf) l hll
        show Geometry.deserialize (k+1) (.tag .MULTILINESTRING m.has_z m.has_m ::
          .cnt m.lines.length :: ((m.lines.map serLineString).flatten ++ rest)) = _
        rw [Geometry.deserialize, desLineStrings_append _ _ hp]
      | multipolygon m =>
        have hp : ∀ p ∈ m.polygons, p.wfPoly = true := by
          intro p hpp
          exact (List.all_eq_true.mp hwf) p hpp
        show Geometry.deserialize (k+1) (.tag .MULTIPOLYGON m.has_z m.has_m ::
          .cnt m.polygons.length :: ((m.polygons.map serPolygon).flatten ++ rest)) = _
        rw [Geometry.deserialize, desPolygons_append _ _ hp]
      | geometrycollection z m gs =>
        have hlen2 : (GeometryList.serialize gs).length + 1 < k := by
          have : (Geometry.serialize (.geometrycollection z m gs)).length
              = (GeometryList.serialize gs).length + 2 := by
            simp [Geometry.serialize]
          omega
        show Geometry.deserialize (k+1) (.tag .GEOMETRYCOLLECTION z m ::
          .cnt gs.length :: (GeometryList.serialize gs ++ rest)) = _
        rw [Geometry.deserialize, ih.2 gs rest hwf hlen2]
    · intro gs rest hwf hlen
      cases gs with
      | nil =>
        show GeometryList.deserialize (k+1) 0 rest = _
        rfl
      | cons g tl =>
        have hg : g.wf = true := by
          have := hwf
          simp only [GeometryList.wf, Bool.and_eq_true] at this
          exact this.1
        have htl : tl.wf = true := by
          have := hwf
          simp only [GeometryList.wf, Bool.and_eq_true] at this
          exact this.2
        have hlens : (GeometryList.serialize (GeometryList.cons g tl)).length
            = (Geometry.serialize g).length + (GeometryList.serialize tl).length := by
          simp [GeometryList.serialize]
        have hpos := serialize_length_pos g
        show GeometryList.deserialize (k+1) (tl.length + 1)
          ((Geometry.serialize g ++ GeometryList.serialize tl) ++ rest) = _
        rw [List.append_assoc, GeometryList.deserialize, ih.1 g _ hg (by omega)]
        simp [ih.2 tl rest htl (by omega)]

/-- C1: the binary codec round-trips — for every valid Geometry Tree `g`
(every vertex tuple as wide as its node's flags declare, rings carrying
their polygon's flags; any tree valid in the spec's sense qualifies),
deserializing the serialization of `g` yields exactly `g`, including
empty-ring and empty-geometry cases. -/
theorem c1_codec_roundtrip (g : Geometry) (h : g.wf = true) :
    Deserialize (Geometry.serialize g) = some g := by
  unfold Deserialize
  have h1 := (roundtrip_main ((Geometry.serialize g).length + 1)).1 g [] h (by omega)
  rw [List.append_nil] at h1
  rw [h1]

/-- Witness for C1 at a tree exercising the empty-ring and empty-geometry
cases: a collection holding an empty point, a polygon with an empty ring and
a real ring, and an empty multipoint. -/
theorem c1_codec_roundtrip_witness :
    (Geometry.wf (.geometrycollection false false
      (.cons (.point ⟨⟨false, false, []⟩⟩)
      (.cons (.polygon ⟨false, false, [⟨false, false, []⟩, ⟨false, false, [[0,0],[1,0],[0,0]]⟩]⟩)
      (.cons (.multipoint ⟨false, false, []⟩) .nil)))) = true) ∧
    Deserialize (Geometry.serialize (.geometrycollection false false
      (.cons (.point ⟨⟨false, false, []⟩⟩)
      (.cons (.polygon ⟨false, false, [⟨false, false, []⟩, ⟨false, false, [[0,0],[1,0],[0,0]]⟩]⟩)
      (.cons (.multipoint ⟨false, false, []⟩) .nil)))))
      = some (.geometrycollection false false
      (.cons (.point ⟨⟨false, false, []⟩⟩)
      (.cons (.polygon ⟨false, false, [⟨false, false, []⟩, ⟨false, false, [[0,0],[1,0],[0,0]]⟩]⟩)
      (.cons (.multipoint ⟨false, false, []⟩) .nil)))) := by
  refine ⟨by decide, c1_codec_roundtrip _ (by decide)⟩

/-! ### C2: the first shape keyword fixes the dimensionality -/

theorem CheckZMFinish_ok {hz hm zmSet gz gm : Bool} {rem : List Char} {a b c : Bool}
    {r : List Char}
    (h : WKTReader.CheckZMFinish hz hm zmSet gz gm rem = .ok ((a, b, c), r)) :
    c = true ∧ (zmSet = true → a = hz ∧ b = hm) := by
  unfold WKTReader.CheckZMFinish at h
  split at h
  · split at h
    · exact absurd h (by simp)
    · simp_all
  · simp_all

theorem CheckZM_ok {hz hm zm : Bool} {rem : List Char} {a b c : Bool} {r : List Char}
    (h : WKTReader.CheckZM hz hm zm rem = .ok ((a, b, c), r)) :
    c = true ∧ (zm = true → a = hz ∧ b = hm) := by
  unfold WKTReader.CheckZM at h
  repeat' split at h
  all_goals first
    | exact CheckZMFinish_ok h
    | simp_all

theorem ParseVertices_flags {hz hm : Bool} {fuel : Nat} {rem : List Char}
    {va : VertexArray} {r : List Char}
    (h : WKTReader.ParseVertices hz hm fuel rem = .ok (va, r)) :
    va.has_z = hz ∧ va.has_m = hm := by
  unfold WKTReader.ParseVertices at h
  repeat' split at h
  all_goals first
    | (simp only [Except.ok.injEq, Prod.mk.injEq] at h;
       obtain ⟨h1, h2⟩ := h; subst h1; exact ⟨rfl, rfl⟩)
    | simp at h

theorem ParsePoint_flags {hz hm : Bool} {rem : List Char} {p : Point} {r : List Char}
    (h : WKTReader.ParsePoint hz hm rem = .ok (p, r)) :
    p.va.has_z = hz ∧ p.va.has_m = hm := by
  unfold WKTReader.ParsePoint at h
  repeat' split at h
  all_goals first
    | (simp only [Except.ok.injEq, Prod.mk.injEq] at h;
       obtain ⟨h1, h2⟩ := h; subst h1; exact ⟨rfl, rfl⟩)
    | simp at h

theorem ParseMultiPointItem_flags {hz hm : Bool} {rem : List Char} {p : Point}
    {r : List Char}
    (h : WKTReader.ParseMultiPointItem hz hm rem = .ok (p, r)) :
    p.va.has_z = hz ∧ p.va.has_m = hm := by
  unfold WKTReader.ParseMultiPointItem at h
  repeat' split at h
  all_goals first
    | (simp only [Except.ok.injEq, Prod.mk.injEq] at h;
       obtain ⟨h1, h2⟩ := h; subst h1; exact ⟨rfl, rfl⟩)
    | simp at h

theorem ParseLineString_flags {hz hm : Bool} {fuel : Nat} {rem : List Char}
    {l : LineString} {r : List Char}
    (h : WKTReader.ParseLineString hz hm fuel rem = .ok (l, r)) :
    l.va.has_z = hz ∧ l.va.has_m = hm := by
  unfold WKTReader.ParseLineString at h
  split at h
  · simp at h
  · rename_i va r2 heq
    have hv := ParseVertices_flags heq
    try simp only [Except.ok.injEq, Prod.mk.injEq] at h
    obtain ⟨h1, h2⟩ := h
    subst h1
    exact hv

theorem ParsePolygonLoop_flags {hz hm : Bool} : ∀ {fuel : Nat} {rem : List Char}
    {acc rs : List VertexArray} {r : List Char},
    WKTReader.ParsePolygonLoop hz hm fuel rem acc = .ok (rs, r) →
    (∀ va ∈ acc, va.has_z = hz ∧ va.has_m = hm) →
    ∀ va ∈ rs, va.has_z = hz ∧ va.has_m = hm := by
  intro fuel
  induction fuel with
  | zero => intro rem acc rs r h _; exact absurd h (by simp [WKTReader.ParsePolygonLoop])
  | succ k ih =>
    intro rem acc rs r h hacc
    rw [WKTReader.ParsePolygonLoop] at h
    split at h
    · exact absurd h (by simp)
    · split at h
      · exact absurd h (by simp)
      · rename_i va r2 heq
        refine ih h ?_
        intro w hw
        rcases List.mem_append.mp hw with hw | hw
        · exact hacc w hw
        · have := ParseVertices_flags heq
          simp at hw
          simp [hw, this]
    · have : acc = rs := by simp_all
      subst this
      exact hacc

theorem ParsePolygon_rings {hz hm : Bool} {fuel : Nat} {rem : List Char} {p : Polygon}
    {r : List Char}
    (h : WKTReader.ParsePolygon hz hm fuel rem = .ok (p, r)) :
    p.has_z = hz ∧ p.has_m = hm ∧ ∀ va ∈ p.rings, va.has_z = hz ∧ va.has_m = hm := by
  unfold WKTReader.ParsePolygon at h
  split at h
  · simp at h
  · try simp only [Except.ok.injEq, Prod.mk.injEq] at h
    obtain ⟨h1, h2⟩ := h
    subst h1
    exact ⟨rfl, rfl, by simp⟩
  · split at h
    · simp at h
    · split at h
      · simp at h
      · rename_i va r1 hVerts
        split at h
        · simp at h
        · rename_i rs r2 hLoop
          split at h
          · simp at h
          · have hva := ParseVertices_flags hVerts
            have hrs := ParsePolygonLoop_flags hLoop
              (by intro w hw; simp at hw; simp [hw, hva])
            try simp only [Except.ok.injEq, Prod.mk.injEq] at h
            obtain ⟨h1, h2⟩ := h
            subst h1
            exact ⟨rfl, rfl, hrs⟩

theorem ParseMultiPointLoop_flags {hz hm : Bool} : ∀ {fuel : Nat} {rem : List Char}
    {acc ps : List Point} {r : List Char},
    WKTReader.ParseMultiPointLoop hz hm fuel rem acc = .ok (ps, r) →
    (∀ p ∈ acc, p.va.has_z = hz ∧ p.va.has_m = hm) →
    ∀ p ∈ ps, p.va.has_z = hz ∧ p.va.has_m = hm := by
  intro fuel
  induction fuel with
  | zero => intro rem acc ps r h _; exact absurd h (by simp [WKTReader.ParseMultiPointLoop])
  | succ k ih =>
    intro rem acc ps r h hacc
    rw [WKTReader.ParseMultiPointLoop] at h
    split at h
    · exact absurd h (by simp)
    · split at h
      · exact absurd h (by simp)
      · rename_i p r2 heq
        refine ih h ?_
        intro w hw
        rcases List.mem_append.mp hw with hw | hw
        · exact hacc w hw
        · have := ParseMultiPointItem_flags heq
          simp at hw
          simp [hw, this]
    · have : acc = ps := by simp_all
      subst this
      exact hacc

theorem ParseMultiLineStringLoop_flags {hz hm : Bool} : ∀ {fuel : Nat} {rem : List Char}
    {acc ls : List LineString} {r : List Char},
    WKTReader.ParseMultiLineStringLoop hz hm fuel rem acc = .ok (ls, r) →
    (∀ l ∈ acc, l.va.has_z = hz ∧ l.va.has_m = hm) →
    ∀ l ∈ ls, l.va.has_z = hz ∧ l.va.has_m = hm := by
  intro fuel
  induction fuel with
  | zero =>
    intro rem acc ls r h _
    exact absurd h (by simp [WKTReader.ParseMultiLineStringLoop])
  | succ k ih =>
    intro rem acc ls r h hacc
    rw [WKTReader.ParseMultiLineStringLoop] at h
    split at h
    · exact absurd h (by simp)
    · split at h
      · exact absurd h (by simp)
      · rename_i l r2 heq
        refine ih h ?_
        intro w hw
        rcases List.mem_append.mp hw with hw | hw
        · exact hacc w hw
        · have := ParseLineString_flags heq
          simp at hw
          simp [hw, this]
    · have : acc = ls := by simp_all
      subst this
      exact hacc

theorem ParseMultiPolygonLoop_flags {hz hm : Bool} : ∀ {fuel : Nat} {rem : List Char}
    {acc ps : List Polygon} {r : List Char},
    WKTReader.ParseMultiPolygonLoop hz hm fuel rem acc = .ok (ps, r) →
    (∀ p ∈ acc, p.has_z = hz ∧ p.has_m = hm ∧
      ∀ va ∈ p.rings, va.has_z = hz ∧ va.has_m = hm) →
    ∀ p ∈ ps, p.has_z = hz ∧ p.has_m = hm ∧
      ∀ va ∈ p.rings, va.has_z = hz ∧ va.has_m = hm := by
  intro fuel
  induction fuel with
  | zero =>
    intro rem acc ps r h _
    exact absurd h (by simp [WKTReader.ParseMultiPolygonLoop])
  | succ k ih =>
    intro rem acc ps r h hacc
    rw [WKTReader.ParseMultiPolygonLoop] at h
    split at h
    · exact absurd h (by simp)
    · split at h
      · exact absurd h (by simp)
      · rename_i p r2 heq
        refine ih h ?_
        intro w hw
        rcases List.mem_append.mp hw with hw | hw
        · exact hacc w hw
        · have := ParsePolygon_rings heq
          simp at hw
          simp [hw]
          exact this
    · have : acc = ps := by simp_all
      subst this
      exact hacc

theorem ParseMultiPoint_parts {hz hm : Bool} {fuel : Nat} {rem : List Char}
    {m : MultiPoint} {r : List Char}
    (h : WKTReader.ParseMultiPoint hz hm fuel rem = .ok (m, r)) :
    m.has_z = hz ∧ m.has_m = hm ∧ ∀ p ∈ m.points, p.va.has_z = hz ∧ p.va.has_m = hm := by
  unfold WKTReader.ParseMultiPoint at h
  split at h
  · simp at h
  · try simp only [Except.ok.injEq, Prod.mk.injEq] at h
    obtain ⟨h1, h2⟩ := h
    subst h1
    exact ⟨rfl, rfl, by simp⟩
  · split at h
    · simp at h
    · split at h
      · simp at h
      · rename_i p r1 hItem
        split at h
        · simp at h
        · rename_i ps r2 hLoop
          split at h
          · simp at h
          · have hp := ParseMultiPointItem_flags hItem
            have hps := ParseMultiPointLoop_flags hLoop
              (by intro w hw; simp at hw; simp [hw, hp])
            try simp only [Except.ok.injEq, Prod.mk.injEq] at h
            obtain ⟨h1, h2⟩ := h
            subst h1
            exact ⟨rfl, rfl, hps⟩

theorem ParseMultiLineString_parts {hz hm : Bool} {fuel : Nat} {rem : List Char}
    {m : MultiLineString} {r : List Char}
    (h : WKTReader.ParseMultiLineString hz hm fuel rem = .ok (m, r)) :
    m.has_z = hz ∧ m.has_m = hm ∧ ∀ l ∈ m.lines, l.va.has_z = hz ∧ l.va.has_m = hm := by
  unfold WKTReader.ParseMultiLineString at h
  split at h
  · simp at h
  · try simp only [Except.ok.injEq, Prod.mk.injEq] at h
    obtain ⟨h1, h2⟩ := h
    subst h1
    exact ⟨rfl, rfl, by simp⟩
  · split at h
    · simp at h
    · split at h
      · simp at h
      · rename_i l r1 hItem
        split at h
        · simp at h
        · rename_i ls r2 hLoop
          split at h
          · simp at h
          · have hl := ParseLineString_flags hItem
            have hls := ParseMultiLineStringLoop_flags hLoop
              (by intro w hw; simp at hw; simp [hw, hl])
            try simp only [Except.ok.injEq, Prod.mk.injEq] at h
            obtain ⟨h1, h2⟩ := h
            subst h1
            exact ⟨rfl, rfl, hls⟩

theorem ParseMultiPolygon_parts {hz hm : Bool} {fuel : Nat} {rem : List Char}
    {m : MultiPolygon} {r : List Char}
    (h : WKTReader.ParseMultiPolygon hz hm fuel rem = .ok (m, r)) :
    m.has_z = hz ∧ m.has_m = hm ∧ ∀ p ∈ m.polygons, p.has_z = hz ∧ p.has_m = hm ∧
      ∀ va ∈ p.rings, va.has_z = hz ∧ va.has_m = hm := by
  unfold WKTReader.ParseMultiPolygon at h
  split at h
  · simp at h
  · try simp only [Except.ok.injEq, Prod.mk.injEq] at h
    obtain ⟨h1, h2⟩ := h
    subst h1
    exact ⟨rfl, rfl, by simp⟩
  · split at h
    · simp at h
    · split at h
      · simp at h
      · rename_i p r1 hItem
        split at h
        · simp at h
        · rename_i ps r2 hLoop
          split at h
          · simp at h
          · have hp := ParsePolygon_rings hItem
            have hps := ParseMultiPolygonLoop_flags hLoop
              (by intro w hw; simp at hw; simp only [hw]; exact hp)
            try simp only [Except.ok.injEq, Prod.mk.injEq] at h
            obtain ⟨h1, h2⟩ := h
            subst h1
            exact ⟨rfl, rfl, hps⟩

theorem ofList_dimsUniform {hz hm : Bool} {l : List Geometry}
    (h : ∀ g ∈ l, g.dimsUniform hz hm = true) :
    GeometryList.dimsUniform hz hm (GeometryList.ofList l) = true := by
  induction l with
  | nil => rfl
  | cons g gs ih =>
    simp only [GeometryList.ofList, GeometryList.dimsUniform, Bool.and_eq_true]
    exact ⟨h g (by simp), ih (fun w hw => h w (by simp [hw]))⟩

theorem ParseGeometry_dims_main : ∀ fuel : Nat,
    (∀ (hz hm zm : Bool) (rem : List Char) (g : Geometry) (a b c : Bool) (r : List Char),
      WKTReader.ParseGeometry fuel hz hm zm rem = .ok ((g, a, b, c), r) →
      c = true ∧ (zm = true → a = hz ∧ b = hm) ∧ g.dimsUniform a b = true) ∧
    (∀ (hz hm : Bool) (rem : List Char) (g : Geometry) (a b c : Bool) (r : List Char),
      WKTReader.ParseGeometryCollection fuel hz hm true rem = .ok ((g, a, b, c), r) →
      a = hz ∧ b = hm ∧ c = true ∧ g.dimsUniform a b = true) ∧
    (∀ (hz hm : Bool) (rem : List Char) (acc gs : List Geometry) (a b c : Bool)
      (r : List Char),
      WKTReader.ParseGeometryCollectionLoop fuel hz hm true rem acc = .ok ((gs, a, b, c), r) →
      a = hz ∧ b = hm ∧ c = true ∧
        ∀ g ∈ gs, g ∈ acc ∨ g.dimsUniform hz hm = true) := by
  intro fuel
  induction fuel with
  | zero =>
    refine ⟨fun hz hm zm rem g a b c r h => ?_, fun hz hm rem g a b c r h => ?_,
      fun hz hm rem acc gs a b c r h => ?_⟩
    · exact absurd h (by simp [WKTReader.ParseGeometry])
    · exact absurd h (by simp [WKTReader.ParseGeometryCollection])
    · exact absurd h (by simp [WKTReader.ParseGeometryCollectionLoop])
  | succ k ih =>
    refine ⟨fun hz hm zm rem g a b c r h => ?_, fun hz hm rem g a b c r h => ?_,
      fun hz hm rem acc gs a b c r h => ?_⟩
    · rw [WKTReader.ParseGeometry] at h
      split at h
      · simp at h
      · -- POINT
        split at h
        · simp at h
        · rename_i a1 b1 c1 r1 hzm
          split at h
          · simp at h
          · rename_i p r2 hbody
            obtain ⟨hc, hpres⟩ := CheckZM_ok hzm
            have hfl := ParsePoint_flags hbody
            simp only [Except.ok.injEq, Prod.mk.injEq] at h
            obtain ⟨⟨hg, ha, hb, hcc⟩, hr⟩ := h
            subst hg ha hb hcc
            exact ⟨hc, hpres, by simp [Geometry.dimsUniform, hfl.1, hfl.2]⟩
      · split at h
        · simp at h
        · -- LINESTRING
          split at h
          · simp at h
          · rename_i a1 b1 c1 r1 hzm
            split at h
            · simp at h
            · rename_i l r2 hbody
              obtain ⟨hc, hpres⟩ := CheckZM_ok hzm
              have hfl := ParseLineString_flags hbody
              simp only [Except.ok.injEq, Prod.mk.injEq] at h
              obtain ⟨⟨hg, ha, hb, hcc⟩, hr⟩ := h
              subst hg ha hb hcc
              exact ⟨hc, hpres, by simp [Geometry.dimsUniform, hfl.1, hfl.2]⟩
        · split at h
          · simp at h
          · -- POLYGON
            split at h
            · simp at h
            · rename_i a1 b1 c1 r1 hzm
              split at h
              · simp at h
              · rename_i p r2 hbody
                obtain ⟨hc, hpres⟩ := CheckZM_ok hzm
                have hfl := ParsePolygon_rings hbody
                simp only [Except.ok.injEq, Prod.mk.injEq] at h
                obtain ⟨⟨hg, ha, hb, hcc⟩, hr⟩ := h
                subst hg ha hb hcc
                refine ⟨hc, hpres, ?_⟩
                simp only [Geometry.dimsUniform, Bool.and_eq_true, beq_iff_eq,
                  List.all_eq_true]
                refine ⟨⟨hfl.1, hfl.2.1⟩, fun va hva => ?_⟩
                have h3 := hfl.2.2 va hva
                simp [h3.1, h3.2]
          · split at h
            · simp at h
            · -- MULTIPOINT
              split at h
              · simp at h
              · rename_i a1 b1 c1 r1 hzm
                split at h
                · simp at h
                · rename_i m r2 hbody
                  obtain ⟨hc, hpres⟩ := CheckZM_ok hzm
                  have hfl := ParseMultiPoint_parts hbody
                  simp only [Except.ok.injEq, Prod.mk.injEq] at h
                  obtain ⟨⟨hg, ha, hb, hcc⟩, hr⟩ := h
                  subst hg ha hb hcc
                  refine ⟨hc, hpres, ?_⟩
                  simp only [Geometry.dimsUniform, Bool.and_eq_true, beq_iff_eq,
                    List.all_eq_true]
                  refine ⟨⟨hfl.1, hfl.2.1⟩, fun p hp => ?_⟩
                  have h3 := hfl.2.2 p hp
                  simp [h3.1, h3.2]
            · split at h
              · simp at h
              · -- MULTILINESTRING
                split at h
                · simp at h
                · rename_i a1 b1 c1 r1 hzm
                  split at h
                  · simp at h
                  · rename_i m r2 hbody
                    obtain ⟨hc, hpres⟩ := CheckZM_ok hzm
                    have hfl := ParseMultiLineString_parts hbody
                    simp only [Except.ok.injEq, Prod.mk.injEq] at h
                    obtain ⟨⟨hg, ha, hb, hcc⟩, hr⟩ := h
                    subst hg ha hb hcc
                    refine ⟨hc, hpres, ?_⟩
                    simp only [Geometry.dimsUniform, Bool.and_eq_true, beq_iff_eq,
                      List.all_eq_true]
                    refine ⟨⟨hfl.1, hfl.2.1⟩, fun l hl => ?_⟩
                    have h3 := hfl.2.2 l hl
                    simp [h3.1, h3.2]
              · split at h
                · simp at h
                · -- MULTIPOLYGON
                  split at h
                  · simp at h
                  · rename_i a1 b1 c1 r1 hzm
                    split at h
                    · simp at h
                    · rename_i m r2 hbody
                      obtain ⟨hc, hpres⟩ := CheckZM_ok hzm
                      have hfl := ParseMultiPolygon_parts hbody
                      simp only [Except.ok.injEq, Prod.mk.injEq] at h
                      obtain ⟨⟨hg, ha, hb, hcc⟩, hr⟩ := h
                      subst hg ha hb hcc
                      refine ⟨hc, hpres, ?_⟩
                      simp only [Geometry.dimsUniform, Bool.and_eq_true, beq_iff_eq,
                        List.all_eq_true]
                      refine ⟨⟨hfl.1, hfl.2.1⟩, fun p hp => ?_⟩
                      have h3 := hfl.2.2 p hp
                      refine ⟨⟨h3.1, h3.2.1⟩, fun va hva => ?_⟩
                      have h4 := h3.2.2 va hva
                      simp [h4.1, h4.2]
                · split at h
                  · simp at h
                  · -- GEOMETRYCOLLECTION
                    split at h
                    · simp at h
                    · rename_i a1 b1 c1 r1 hzm
                      obtain ⟨hc, hpres⟩ := CheckZM_ok hzm
                      subst hc
                      have hcoll := ih.2.1 _ _ _ _ _ _ _ _ h
                      refine ⟨hcoll.2.2.1, fun hzmt => ?_, hcoll.2.2.2⟩
                      obtain ⟨hA, hB⟩ := hpres hzmt
                      exact ⟨hcoll.1.trans hA, hcoll.2.1.trans hB⟩
                  · -- unknown keyword
                    simp at h
    · rw [WKTReader.ParseGeometryCollection] at h
      split at h
      · simp at h
      · -- EMPTY
        simp only [Except.ok.injEq, Prod.mk.injEq] at h
        obtain ⟨⟨hg, ha, hb, hcc⟩, hr⟩ := h
        subst hg ha hb hcc
        exact ⟨rfl, rfl, rfl, by simp [Geometry.dimsUniform, GeometryList.dimsUniform]⟩
      · split at h
        · simp at h
        · split at h
          · simp at h
          · rename_i g1 a1 b1 c1 r2 hchild
            have hch := ih.1 _ _ _ _ _ _ _ _ _ hchild
            obtain ⟨hc1, hpres1, hdims1⟩ := hch
            obtain ⟨ha1, hb1⟩ := hpres1 rfl
            subst ha1 hb1
            subst hc1
            split at h
            · simp at h
            · rename_i gs2 a2 b2 c2 r3 hloop
              have hlp := ih.2.2 _ _ _ _ _ _ _ _ _ hloop
              obtain ⟨ha2, hb2, hc2, hmem⟩ := hlp
              subst ha2 hb2
              split at h
              · simp at h
              · simp only [Except.ok.injEq, Prod.mk.injEq] at h
                obtain ⟨⟨hg, ha, hb, hcc⟩, hr⟩ := h
                subst hg ha hb hcc
                refine ⟨rfl, rfl, hc2, ?_⟩
                simp only [Geometry.dimsUniform, Bool.and_eq_true, beq_iff_eq]
                refine ⟨by simp, ofList_dimsUniform ?_⟩
                intro w hw
                rcases hmem w hw with hw2 | hw2
                · simp at hw2
                  subst hw2
                  exact hdims1
                · exact hw2
    · rw [WKTReader.ParseGeometryCollectionLoop] at h
      split at h
      · simp at h
      · split at h
        · simp at h
        · rename_i g1 a1 b1 c1 r2 hchild
          have hch := ih.1 _ _ _ _ _ _ _ _ _ hchild
          obtain ⟨hc1, hpres1, hdims1⟩ := hch
          obtain ⟨ha1, hb1⟩ := hpres1 rfl
          subst ha1 hb1
          subst hc1
          have hlp := ih.2.2 _ _ _ _ _ _ _ _ _ h
          obtain ⟨ha2, hb2, hc2, hmem⟩ := hlp
          refine ⟨ha2, hb2, hc2, fun w hw => ?_⟩
          rcases hmem w hw with hw2 | hw2
          · rcases List.mem_append.mp hw2 with hw3 | hw3
            · exact Or.inl hw3
            · simp at hw3
              subst hw3
              exact Or.inr hdims1
          · exact Or.inr hw2
      · simp only [Except.ok.injEq, Prod.mk.injEq] at h
        obtain ⟨⟨hg, ha, hb, hcc⟩, hr⟩ := h
        subst hg ha hb hcc
        exact ⟨rfl, rfl, rfl, fun g hg => Or.inl hg⟩

theorem dimsUniform_geomFlags {g : Geometry} {hz hm : Bool}
    (h : g.dimsUniform hz hm = true) : g.geomHasZ = hz ∧ g.geomHasM = hm := by
  cases g <;>
    simp_all [Geometry.dimsUniform, Geometry.geomHasZ, Geometry.geomHasM]

/-- C2 (amended): the first shape keyword fixes the reader's dimensionality:
the mixed collection `GEOMETRYCOLLECTION(POINT Z(1 2 3), POINT(4 5))` fails
with the mismatch error, every tree the parser returns carries identical
`has_z`/`has_m` flags on all of its nodes, and a collection that itself
declares `Z` accepts matching `Z` children:
`GEOMETRYCOLLECTION Z (POINT Z(1 2 3), POINT Z(4 5 6))` succeeds. -/
theorem c2_first_keyword_fixes_dims :
    WKTReader.Parse "GEOMETRYCOLLECTION(POINT Z(1 2 3), POINT(4 5))" =
      .error (.raised
        "WKT Parser: GeometryCollection with mixed Z and M types are not supported, mismatch at position 26 near: 'GEOMETRYCOLLECTION(POINT Z('|<---"
        26 "GEOMETRYCOLLECTION(POINT Z(") ∧
    WKTReader.Parse "GEOMETRYCOLLECTION Z (POINT Z(1 2 3), POINT Z(4 5 6))" =
      .ok (.geometrycollection true false
        (.cons (.point ⟨⟨true, false, [[1, 2, 3]]⟩⟩)
          (.cons (.point ⟨⟨true, false, [[4, 5, 6]]⟩⟩) .nil))) ∧
    ∀ (s : String) (g : Geometry), WKTReader.Parse s = .ok g →
      g.dimsUniform g.geomHasZ g.geomHasM = true := by
  refine ⟨by decide, by decide, fun s g h => ?_⟩
  simp only [WKTReader.Parse] at h
  split at h
  case h_2 => simp at h
  case h_1 x gout a b c r heq =>
    simp only [Except.ok.injEq] at h
    subst h
    have hmain : ∀ rem : List Char,
        WKTReader.ParseGeometry (s.data.length + 1) false false false rem
          = .ok ((gout, a, b, c), r) →
        Geometry.dimsUniform gout.geomHasZ gout.geomHasM gout = true := by
      intro rem hpg
      have hm2 := (ParseGeometry_dims_main (s.data.length + 1)).1 _ _ _ _ _ _ _ _ _ hpg
      have hfl := dimsUniform_geomFlags hm2.2.2
      rw [hfl.1, hfl.2]
      exact hm2.2.2
    unfold WKTReader.ParseWKT at heq
    split at heq
    · simp at heq
    · split at heq
      · simp at heq
      · exact hmain _ heq
    · exact hmain _ heq

/-- Witness for C2: the uniformity clause applied to the parse of
`POINT Z(1 2 3)`. -/
theorem c2_first_keyword_fixes_dims_witness :
    Geometry.dimsUniform true false (.point ⟨⟨true, false, [[1, 2, 3]]⟩⟩) = true := by
  have h := c2_first_keyword_fixes_dims.2.2 "POINT Z(1 2 3)"
    (.point ⟨⟨true, false, [[1, 2, 3]]⟩⟩) (by decide)
  simpa [Geometry.geomHasZ, Geometry.geomHasM] using h

/-! ### C5: error reporting -/

theorem ErrorContextOf_length (full remAt : List Char) :
    (WKTReader.ErrorContextOf full remAt).2.length ≤ 36 := by
  unfold WKTReader.ErrorContextOf
  have hmk : ∀ l : List Char, (String.mk l).length = l.length := fun l => rfl
  have hcore : (String.mk (((full.drop (full.length - remAt.length - 32)).take
      (min (full.length - remAt.length + 1) full.length
        - (full.length - remAt.length - 32))))).length ≤ 33 := by
    rw [hmk]
    have := List.length_take
      (min (full.length - remAt.length + 1) full.length - (full.length - remAt.length - 32))
      (full.drop (full.length - remAt.length - 32))
    omega
  have hdots : ("..." : String).length = 3 := rfl
  simp only []
  split
  · rw [String.length_append]
    omega
  · omega

theorem RenderFailure_raised {full : List Char} {e : Failure} {m : String} {off : Nat}
    {ctx : String} (h : WKTReader.RenderFailure full e = .raised m off ctx) :
    ∃ (pre : String) (remAt : List Char),
      m = pre ++ WKTReader.RenderContext off ctx ∧
      (off, ctx) = WKTReader.ErrorContextOf full remAt := by
  cases e <;>
    simp only [WKTReader.RenderFailure, WKTReader.ParseError.raised.injEq] at h
  case oobRead remAt => simp at h
  case outOfFuel => simp at h
  case expectedChar c remAt =>
    obtain ⟨hm, hoff, hctx⟩ := h
    subst hoff hctx
    exact ⟨_, remAt, hm.symm, rfl⟩
  case expectedDouble remAt =>
    obtain ⟨hm, hoff, hctx⟩ := h
    subst hoff hctx
    exact ⟨_, remAt, hm.symm, rfl⟩
  case unknownType w remAt =>
    obtain ⟨hm, hoff, hctx⟩ := h
    subst hoff hctx
    exact ⟨_, remAt, hm.symm, rfl⟩
  case mixedZM remAt =>
    obtain ⟨hm, hoff, hctx⟩ := h
    subst hoff hctx
    exact ⟨_, remAt, hm.symm, rfl⟩

/-- C5: a parse failure carries the byte offset of the failure position and a
bounded left-context window, rendered as
`<message> at position <offset> near: '<context>'|<---`. Concretely,
`POINT(1 x)` fails with offset 8 — the position of the `x` — and a context
whose text is `POINT(` followed by `1 x`; generally, every raised parser
error's message is some message text followed by the rendered
`at position <offset> near: '<context>'|<---` with the offset and context
computed by `GetErrorContext`, whose context never exceeds 32 characters of
left context plus the current character (36 with the `...` marker). -/
theorem c5_error_reporting :
    WKTReader.Parse "POINT(1 x)" =
      .error (.raised "WKT Parser: Expected double at position 8 near: 'POINT(1 x'|<---"
        8 "POINT(1 x") ∧
    "POINT(1 x)".data.getD 8 ' ' = 'x' ∧
    "POINT(1 x" = "POINT(" ++ "1 x" ∧
    (∀ (s : String) (m : String) (off : Nat) (ctx : String),
      WKTReader.Parse s = .error (.raised m off ctx) →
      ∃ (pre : String) (remAt : List Char),
        m = pre ++ WKTReader.RenderContext off ctx ∧
        (off, ctx) = WKTReader.ErrorContextOf s.data remAt) ∧
    (∀ (full remAt : List Char), (WKTReader.ErrorContextOf full remAt).2.length ≤ 36) := by
  refine ⟨by decide, by decide, by decide, fun s m off ctx h => ?_, ErrorContextOf_length⟩
  simp only [WKTReader.Parse] at h
  split at h
  · simp at h
  · rename_i e heq
    simp only [Except.error.injEq] at h
    exact RenderFailure_raised h

/-- Witness for C5: the format clause applied to the failing parse of
`POINT(1 x)`. -/
theorem c5_error_reporting_witness :
    ∃ (pre : String) (remAt : List Char),
      "WKT Parser: Expected double at position 8 near: 'POINT(1 x'|<---"
        = pre ++ WKTReader.RenderContext 8 "POINT(1 x" ∧
      ((8 : Nat), "POINT(1 x") = WKTReader.ErrorContextOf "POINT(1 x)".data remAt :=
  c5_error_reporting.2.2.2.1 "POINT(1 x)" _ 8 "POINT(1 x" (by decide)

/-! ### Fuel monotonicity: a parse that succeeds with some fuel succeeds,
with the same result, with any larger fuel (the fuel is an artifact of the
embedding; the source recursion has no such parameter). -/

theorem ParseVerticesLoop_mono {hz hm : Bool} : ∀ {f f' : Nat}, f ≤ f' →
    ∀ {rem : List Char} {acc : List Vertex} {out : List Vertex × List Char},
    WKTReader.ParseVerticesLoop hz hm f rem acc = .ok out →
    WKTReader.ParseVerticesLoop hz hm f' rem acc = .ok out := by
  intro f
  induction f with
  | zero => intro f' _ rem acc out h; simp [WKTReader.ParseVerticesLoop] at h
  | succ k ih =>
    intro f' hle rem acc out h
    obtain ⟨k', rfl⟩ : ∃ k', f' = k' + 1 := ⟨f' - 1, by omega⟩
    rw [WKTReader.ParseVerticesLoop] at h
    rw [WKTReader.ParseVerticesLoop]
    cases hM : WKTReader.Match ',' rem with
    | error e => simp [hM] at h
    | ok v =>
      obtain ⟨b, r⟩ := v
      simp only [hM] at h ⊢
      cases b
      · exact h
      · cases hV : WKTReader.ParseVertex hz hm r with
        | error e => simp [hV] at h
        | ok vr =>
          obtain ⟨v2, r2⟩ := vr
          simp only [hV] at h ⊢
          exact ih (by omega) h

theorem ParseVertices_mono {hz hm : Bool} {f f' : Nat} (hle : f ≤ f')
    {rem : List Char} {out : VertexArray × List Char}
    (h : WKTReader.ParseVertices hz hm f rem = .ok out) :
    WKTReader.ParseVertices hz hm f' rem = .ok out := by
  rw [WKTReader.ParseVertices] at h
  rw [WKTReader.ParseVertices]
  cases hE : WKTReader.MatchCI "EMPTY" rem with
  | error e => simp [hE] at h
  | ok v =>
    obtain ⟨b, r⟩ := v
    simp only [hE] at h ⊢
    cases b
    · cases hX : WKTReader.Expect '(' rem with
      | error e => simp [hX] at h
      | ok r1 =>
        simp only [hX] at h ⊢
        cases hV : WKTReader.ParseVertex hz hm r1 with
        | error e => simp [hV] at h
        | ok vr =>
          obtain ⟨v2, r2⟩ := vr
          simp only [hV] at h ⊢
          cases hL : WKTReader.ParseVerticesLoop hz hm f r2 [v2] with
          | error e => simp [hL] at h
          | ok lr =>
            obtain ⟨vs, r3⟩ := lr
            simp only [ParseVerticesLoop_mono hle hL]
            simp only [hL] at h
            exact h
    · exact h

theorem ParseLineString_mono {hz hm : Bool} {f f' : Nat} (hle : f ≤ f')
    {rem : List Char} {out : LineString × List Char}
    (h : WKTReader.ParseLineString hz hm f rem = .ok out) :
    WKTReader.ParseLineString hz hm f' rem = .ok out := by
  rw [WKTReader.ParseLineString] at h
  rw [WKTReader.ParseLineString]
  cases hV : WKTReader.ParseVertices hz hm f rem with
  | error e => simp [hV] at h
  | ok vr =>
    simp only [ParseVertices_mono hle hV]
    simp only [hV] at h
    exact h

theorem ParsePolygonLoop_mono {hz hm : Bool} : ∀ {f f' : Nat}, f ≤ f' →
    ∀ {rem : List Char} {acc : List VertexArray} {out : List VertexArray × List Char},
    WKTReader.ParsePolygonLoop hz hm f rem acc = .ok out →
    WKTReader.ParsePolygonLoop hz hm f' rem acc = .ok out := by
  intro f
  induction f with
  | zero => intro f' _ rem acc out h; simp [WKTReader.ParsePolygonLoop] at h
  | succ k ih =>
    intro f' hle rem acc out h
    obtain ⟨k', rfl⟩ : ∃ k', f' = k' + 1 := ⟨f' - 1, by omega⟩
    rw [WKTReader.ParsePolygonLoop] at h
    rw [WKTReader.ParsePolygonLoop]
    cases hM : WKTReader.Match ',' rem with
    | error e => simp [hM] at h
    | ok v =>
      obtain ⟨b, r⟩ := v
      simp only [hM] at h ⊢
      cases b
      · exact h
      · cases hV : WKTReader.ParseVertices hz hm k r with
        | error e => simp [hV] at h
        | ok vr =>
          obtain ⟨va, r2⟩ := vr
          simp only [ParseVertices_mono (by omega : k ≤ k') hV]
          simp only [hV] at h
          exact ih (by omega) h

theorem ParsePolygon_mono {hz hm : Bool} {f f' : Nat} (hle : f ≤ f')
    {rem : List Char} {out : Polygon × List Char}
    (h : WKTReader.ParsePolygon hz hm f rem = .ok out) :
    WKTReader.ParsePolygon hz hm f' rem = .ok out := by
  rw [WKTReader.ParsePolygon] at h
  rw [WKTReader.ParsePolygon]
  cases hE : WKTReader.MatchCI "EMPTY" rem with
  | error e => simp [hE] at h
  | ok v =>
    obtain ⟨b, r⟩ := v
    simp only [hE] at h ⊢
    cases b
    · cases hX : WKTReader.Expect '(' rem with
      | error e => simp [hX] at h
      | ok r1 =>
        simp only [hX] at h ⊢
        cases hV : WKTReader.ParseVertices hz hm f r1 with
        | error e => simp [hV] at h
        | ok vr =>
          obtain ⟨va, r2⟩ := vr
          simp only [ParseVertices_mono hle hV]
          simp only [hV] at h
          cases hL : WKTReader.ParsePolygonLoop hz hm f r2 [va] with
          | error e => simp [hL] at h
          | ok lr =>
            obtain ⟨rs, r3⟩ := lr
            simp only [ParsePolygonLoop_mono hle hL]
            simp only [hL] at h
            exact h
    · exact h

theorem ParseMultiPointLoop_mono {hz hm : Bool} : ∀ {f f' : Nat}, f ≤ f' →
    ∀ {rem : List Char} {acc : List Point} {out : List Point × List Char},
    WKTReader.ParseMultiPointLoop hz hm f rem acc = .ok out →
    WKTReader.ParseMultiPointLoop hz hm f' rem acc = .ok out := by
  intro f
  induction f with
  | zero => intro f' _ rem acc out h; simp [WKTReader.ParseMultiPointLoop] at h
  | succ k ih =>
    intro f' hle rem acc out h
    obtain ⟨k', rfl⟩ : ∃ k', f' = k' + 1 := ⟨f' - 1, by omega⟩
    rw [WKTReader.ParseMultiPointLoop] at h
    rw [WKTReader.ParseMultiPointLoop]
    cases hM : WKTReader.Match ',' rem with
    | error e => simp [hM] at h
    | ok v =>
      obtain ⟨b, r⟩ := v
      simp only [hM] at h ⊢
      cases b
      · exact h
      · cases hV : WKTReader.ParseMultiPointItem hz hm r with
        | error e => simp [hV] at h
        | ok vr =>
          obtain ⟨p, r2⟩ := vr
          simp only [hV] at h ⊢
          exact ih (by omega) h

theorem ParseMultiPoint_mono {hz hm : Bool} {f f' : Nat} (hle : f ≤ f')
    {rem : List Char} {out : MultiPoint × List Char}
    (h : WKTReader.ParseMultiPoint hz hm f rem = .ok out) :
    WKTReader.ParseMultiPoint hz hm f' rem = .ok out := by
  rw [WKTReader.ParseMultiPoint] at h
  rw [WKTReader.ParseMultiPoint]
  cases hE : WKTReader.MatchCI "EMPTY" rem with
  | error e => simp [hE] at h
  | ok v =>
    obtain ⟨b, r⟩ := v
    simp only [hE] at h ⊢
    cases b
    · cases hX : WKTReader.Expect '(' rem with
      | error e => simp [hX] at h
      | ok r1 =>
        simp only [hX] at h ⊢
        cases hV : WKTReader.ParseMultiPointItem hz hm r1 with
        | error e => simp [hV] at h
        | ok vr =>
          obtain ⟨p, r2⟩ := vr
          simp only [hV] at h ⊢
          cases hL : WKTReader.ParseMultiPointLoop hz hm f r2 [p] with
          | error e => simp [hL] at h
          | ok lr =>
            obtain ⟨ps, r3⟩ := lr
            simp only [ParseMultiPointLoop_mono hle hL]
            simp only [hL] at h
            exact h
    · exact h

theorem ParseMultiLineStringLoop_mono {hz hm : Bool} : ∀ {f f' : Nat}, f ≤ f' →
    ∀ {rem : List Char} {acc : List LineString} {out : List LineString × List Char},
    WKTReader.ParseMultiLineStringLoop hz hm f rem acc = .ok out →
    WKTReader.ParseMultiLineStringLoop hz hm f' rem acc = .ok out := by
  intro f
  induction f with
  | zero => intro f' _ rem acc out h; simp [WKTReader.ParseMultiLineStringLoop] at h
  | succ k ih =>
    intro f' hle rem acc out h
    obtain ⟨k', rfl⟩ : ∃ k', f' = k' + 1 := ⟨f' - 1, by omega⟩
    rw [WKTReader.ParseMultiLineStringLoop] at h
    rw [WKTReader.ParseMultiLineStringLoop]
    cases hM : WKTReader.Match ',' rem with
    | error e => simp [hM] at h
    | ok v =>
      obtain ⟨b, r⟩ := v
      simp only [hM] at h ⊢
      cases b
      · exact h
      · cases hV : WKTReader.ParseLineString hz hm k r with
        | error e => simp [hV] at h
        | ok vr =>
          obtain ⟨l, r2⟩ := vr
          simp only [ParseLineString_mono (by omega : k ≤ k') hV]
          simp only [hV] at h
          exact ih (by omega) h

theorem ParseMultiLineString_mono {hz hm : Bool} {f f' : Nat} (hle : f ≤ f')
    {rem : List Char} {out : MultiLineString × List Char}
    (h : WKTReader.ParseMultiLineString hz hm f rem = .ok out) :
    WKTReader.ParseMultiLineString hz hm f' rem = .ok out := by
  rw [WKTReader.ParseMultiLineString] at h
  rw [WKTReader.ParseMultiLineString]
  cases hE : WKTReader.MatchCI "EMPTY" rem with
  | error e => simp [hE] at h
  | ok v =>
    obtain ⟨b, r⟩ := v
    simp only [hE] at h ⊢
    cases b
    · cases hX : WKTReader.Expect '(' rem with
      | error e => simp [hX] at h
      | ok r1 =>
        simp only [hX] at h ⊢
        cases hV : WKTReader.ParseLineString hz hm f r1 with
        | error e => simp [hV] at h
        | ok vr =>
          obtain ⟨l, r2⟩ := vr
          simp only [ParseLineString_mono hle hV]
          simp only [hV] at h
          cases hL : WKTReader.ParseMultiLineStringLoop hz hm f r2 [l] with
          | error e => simp [hL] at h
          | ok lr =>
            obtain ⟨ls, r3⟩ := lr
            simp only [ParseMultiLineStringLoop_mono hle hL]
            simp only [hL] at h
            exact h
    · exact h

theorem ParseMultiPolygonLoop_mono {hz hm : Bool} : ∀ {f f' : Nat}, f ≤ f' →
    ∀ {rem : List Char} {acc : List Polygon} {out : List Polygon × List Char},
    WKTReader.ParseMultiPolygonLoop hz hm f rem acc = .ok out →
    WKTReader.ParseMultiPolygonLoop hz hm f' rem acc = .ok out := by
  intro f
  induction f with
  | zero => intro f' _ rem acc out h; simp [WKTReader.ParseMultiPolygonLoop] at h
  | succ k ih =>
    intro f' hle rem acc out h
    obtain ⟨k', rfl⟩ : ∃ k', f' = k' + 1 := ⟨f' - 1, by omega⟩
    rw [WKTReader.ParseMultiPolygonLoop] at h
    rw [WKTReader.ParseMultiPolygonLoop]
    cases hM : WKTReader.Match ',' rem with
    | error e => simp [hM] at h
    | ok v =>
      obtain ⟨b, r⟩ := v
      simp only [hM] at h ⊢
      cases b
      · exact h
      · cases hV : WKTReader.ParsePolygon hz hm k r with
        | error e => simp [hV] at h
        | ok vr =>
          obtain ⟨p, r2⟩ := vr
          simp only [ParsePolygon_mono (by omega : k ≤ k') hV]
          simp only [hV] at h
          exact ih (by omega) h

theorem ParseMultiPolygon_mono {hz hm : Bool} {f f' : Nat} (hle : f ≤ f')
    {rem : List Char} {out : MultiPolygon × List Char}
    (h : WKTReader.ParseMultiPolygon hz hm f rem = .ok out) :
    WKTReader.ParseMultiPolygon hz hm f' rem = .ok out := by
  rw [WKTReader.ParseMultiPolygon] at h
  rw [WKTReader.ParseMultiPolygon]
  cases hE : WKTReader.MatchCI "EMPTY" rem with
  | error e => simp [hE] at h
  | ok v =>
    obtain ⟨b, r⟩ := v
    simp only [hE] at h ⊢
    cases b
    · cases hX : WKTReader.Expect '(' rem with
      | error e => simp [hX] at h
      | ok r1 =>
        simp only [hX] at h ⊢
        cases hV : WKTReader.ParsePolygon hz hm f r1 with
        | error e => simp [hV] at h
        | ok vr =>
          obtain ⟨p, r2⟩ := vr
          simp only [ParsePolygon_mono hle hV]
          simp only [hV] at h
          cases hL : WKTReader.ParseMultiPolygonLoop hz hm f r2 [p] with
          | error e => simp [hL] at h
          | ok lr =>
            obtain ⟨ps, r3⟩ := lr
            simp only [ParseMultiPolygonLoop_mono hle hL]
            simp only [hL] at h
            exact h
    · exact h

theorem ParseGeometry_mono_main : ∀ f : Nat,
    (∀ {f' : Nat}, f ≤ f' → ∀ {hz hm zm : Bool} {rem : List Char}
      {out : (Geometry × Bool × Bool × Bool) × List Char},
      WKTReader.ParseGeometry f hz hm zm rem = .ok out →
      WKTReader.ParseGeometry f' hz hm zm rem = .ok out) ∧
    (∀ {f' : Nat}, f ≤ f' → ∀ {hz hm zm : Bool} {rem : List Char}
      {out : (Geometry × Bool × Bool × Bool) × List Char},
      WKTReader.ParseGeometryCollection f hz hm zm rem = .ok out →
      WKTReader.ParseGeometryCollection f' hz hm zm rem = .ok out) ∧
    (∀ {f' : Nat}, f ≤ f' → ∀ {hz hm zm : Bool} {rem : List Char} {acc : List Geometry}
      {out : (List Geometry × Bool × Bool × Bool) × List Char},
      WKTReader.ParseGeometryCollectionLoop f hz hm zm rem acc = .ok out →
      WKTReader.ParseGeometryCollectionLoop f' hz hm zm rem acc = .ok out) := by
  intro f
  induction f with
  | zero =>
    refine ⟨?_, ?_, ?_⟩
    · intro f' hle hz hm zm rem out h
      simp [WKTReader.ParseGeometry] at h
    · intro f' hle hz hm zm rem out h
      simp [WKTReader.ParseGeometryCollection] at h
    · intro f' hle hz hm zm rem acc out h
      simp [WKTReader.ParseGeometryCollectionLoop] at h
  | succ k ih =>
    have step : ∀ f' : Nat, k + 1 ≤ f' → ∃ k', f' = k' + 1 ∧ k ≤ k' := by
      intro f' hle
      exact ⟨f' - 1, by omega, by omega⟩
    refine ⟨?_, ?_, ?_⟩
    · intro f' hle hz hm zm rem out h
      obtain ⟨k', rfl, hk⟩ := step _ hle
      rw [WKTReader.ParseGeometry] at h
      rw [WKTReader.ParseGeometry]
      cases h1 : WKTReader.MatchCI "POINT" rem with
      | error e => simp [h1] at h
      | ok v1 =>
      obtain ⟨b1, r1⟩ := v1
      simp only [h1] at h ⊢
      cases b1
      case true =>
        cases h2 : WKTReader.CheckZM hz hm zm r1 with
        | error e => simp [h2] at h
        | ok v2 =>
          obtain ⟨⟨a2, b2, c2⟩, r2⟩ := v2
          simp only [h2] at h ⊢
          exact h
      case false =>
      cases h1 : WKTReader.MatchCI "LINESTRING" rem with
      | error e => simp [h1] at h
      | ok v1 =>
      obtain ⟨b1, r1⟩ := v1
      simp only [h1] at h ⊢
      cases b1
      case true =>
        cases h2 : WKTReader.CheckZM hz hm zm r1 with
        | error e => simp [h2] at h
        | ok v2 =>
          obtain ⟨⟨a2, b2, c2⟩, r2⟩ := v2
          simp only [h2] at h ⊢
          cases h3 : WKTReader.ParseLineString a2 b2 k r2 with
          | error e => simp [h3] at h
          | ok v3 =>
            obtain ⟨l, r3⟩ := v3
            simp only [ParseLineString_mono hk h3]
            simp only [h3] at h
            exact h
      case false =>
      cases h1 : WKTReader.MatchCI "POLYGON" rem with
      | error e => simp [h1] at h
      | ok v1 =>
      obtain ⟨b1, r1⟩ := v1
      simp only [h1] at h ⊢
      cases b1
      case true =>
        cases h2 : WKTReader.CheckZM hz hm zm r1 with
        | error e => simp [h2] at h
        | ok v2 =>
          obtain ⟨⟨a2, b2, c2⟩, r2⟩ := v2
          simp only [h2] at h ⊢
          cases h3 : WKTReader.ParsePolygon a2 b2 k r2 with
          | error e => simp [h3] at h
          | ok v3 =>
            obtain ⟨p, r3⟩ := v3
            simp only [ParsePolygon_mono hk h3]
            simp only [h3] at h
            exact h
      case false =>
      cases h1 : WKTReader.MatchCI "MULTIPOINT" rem with
      | error e => simp [h1] at h
      | ok v1 =>
      obtain ⟨b1, r1⟩ := v1
      simp only [h1] at h ⊢
      cases b1
      case true =>
        cases h2 : WKTReader.CheckZM hz hm zm r1 with
        | error e => simp [h2] at h
        | ok v2 =>
          obtain ⟨⟨a2, b2, c2⟩, r2⟩ := v2
          simp only [h2] at h ⊢
          cases h3 : WKTReader.ParseMultiPoint a2 b2 k r2 with
          | error e => simp [h3] at h
          | ok v3 =>
            obtain ⟨m, r3⟩ := v3
            simp only [ParseMultiPoint_mono hk h3]
            simp only [h3] at h
            exact h
      case false =>
      cases h1 : WKTReader.MatchCI "MULTILINESTRING" rem with
      | error e => simp [h1] at h
      | ok v1 =>
      obtain ⟨b1, r1⟩ := v1
      simp only [h1] at h ⊢
      cases b1
      case true =>
        cases h2 : WKTReader.CheckZM hz hm zm r1 with
        | error e => simp [h2] at h
        | ok v2 =>
          obtain ⟨⟨a2, b2, c2⟩, r2⟩ := v2
          simp only [h2] at h ⊢
          cases h3 : WKTReader.ParseMultiLineString a2 b2 k r2 with
          | error e => simp [h3] at h
          | ok v3 =>
            obtain ⟨m, r3⟩ := v3
            simp only [ParseMultiLineString_mono hk h3]
            simp only [h3] at h
            exact h
      case false =>
      cases h1 : WKTReader.MatchCI "MULTIPOLYGON" rem with
      | error e => simp [h1] at h
      | ok v1 =>
      obtain ⟨b1, r1⟩ := v1
      simp only [h1] at h ⊢
      cases b1
      case true =>
        cases h2 : WKTReader.CheckZM hz hm zm r1 with
        | error e => simp [h2] at h
        | ok v2 =>
          obtain ⟨⟨a2, b2, c2⟩, r2⟩ := v2
          simp only [h2] at h ⊢
          cases h3 : WKTReader.ParseMultiPolygon a2 b2 k r2 with
          | error e => simp [h3] at h
          | ok v3 =>
            obtain ⟨m, r3⟩ := v3
            simp only [ParseMultiPolygon_mono hk h3]
            simp only [h3] at h
            exact h
      case false =>
      cases h1 : WKTReader.MatchCI "GEOMETRYCOLLECTION" rem with
      | error e => simp [h1] at h
      | ok v1 =>
      obtain ⟨b1, r1⟩ := v1
      simp only [h1] at h ⊢
      cases b1
      case true =>
        cases h2 : WKTReader.CheckZM hz hm zm r1 with
        | error e => simp [h2] at h
        | ok v2 =>
          obtain ⟨⟨a2, b2, c2⟩, r2⟩ := v2
          simp only [h2] at h ⊢
          exact ih.2.1 hk h
      case false => exact h
    · intro f' hle hz hm zm rem out h
      obtain ⟨k', rfl, hk⟩ := step _ hle
      rw [WKTReader.ParseGeometryCollection] at h
      rw [WKTReader.ParseGeometryCollection]
      cases hE : WKTReader.MatchCI "EMPTY" rem with
      | error e => simp [hE] at h
      | ok v =>
        obtain ⟨b, r⟩ := v
        simp only [hE] at h ⊢
        cases b
        case true => exact h
        case false =>
          cases hX : WKTReader.Expect '(' rem with
          | error e => simp [hX] at h
          | ok r1 =>
            simp only [hX] at h ⊢
            cases hG : WKTReader.ParseGeometry k hz hm zm r1 with
            | error e => simp [hG] at h
            | ok v2 =>
              obtain ⟨⟨g1, a1, b1, c1⟩, r2⟩ := v2
              simp only [ih.1 hk hG]
              simp only [hG] at h
              cases hL : WKTReader.ParseGeometryCollectionLoop k a1 b1 c1 r2 [g1] with
              | error e => simp [hL] at h
              | ok v3 =>
                obtain ⟨⟨gs, a2, b2, c2⟩, r3⟩ := v3
                simp only [ih.2.2 hk hL]
                simp only [hL] at h
                exact h
    · intro f' hle hz hm zm rem acc out h
      obtain ⟨k', rfl, hk⟩ := step _ hle
      rw [WKTReader.ParseGeometryCollectionLoop] at h
      rw [WKTReader.ParseGeometryCollectionLoop]
      cases hM : WKTReader.Match ',' rem with
      | error e => simp [hM] at h
      | ok v =>
        obtain ⟨b, r⟩ := v
        simp only [hM] at h ⊢
        cases b
        case true =>
          cases hG : WKTReader.ParseGeometry k hz hm zm r with
          | error e => simp [hG] at h
          | ok v2 =>
            obtain ⟨⟨g1, a1, b1, c1⟩, r2⟩ := v2
            simp only [ih.1 hk hG]
            simp only [hG] at h
            exact ih.2.2 hk h
        case false => exact h

theorem ParseGeometry_mono {f f' : Nat} (hle : f ≤ f') {hz hm zm : Bool}
    {rem : List Char} {out : (Geometry × Bool × Bool × Bool) × List Char}
    (h : WKTReader.ParseGeometry f hz hm zm rem = .ok out) :
    WKTReader.ParseGeometry f' hz hm zm rem = .ok out :=
  (ParseGeometry_mono_main f).1 hle h

/-! ### Head-character facts: a successful keyword match pins down the first
input character, which is what makes the `SRID` test of `ParseWKT` and the
whitespace skips deterministic. -/

theorem MatchCIGo_cons_head {k : Char} {ks rem r' : List Char}
    (h : WKTReader.MatchCIGo (k :: ks) rem = .ok (some r')) :
    ∃ d r, rem = d :: r ∧ d.toLower = k.toLower := by
  cases rem with
  | nil => simp [WKTReader.MatchCIGo] at h
  | cons d r =>
    simp only [WKTReader.MatchCIGo] at h
    split at h
    · exact ⟨d, r, rfl, by assumption⟩
    · simp at h

theorem MatchCI_true_head {kw : String} {k : Char} {ks : List Char} {rem r' : List Char}
    (hkw : kw.data = k :: ks)
    (h : WKTReader.MatchCI kw rem = .ok (true, r')) :
    ∃ d r, rem = d :: r ∧ d.toLower = k.toLower := by
  rw [WKTReader.MatchCI] at h
  cases hG : WKTReader.MatchCIGo kw.data rem with
  | error e => simp [hG] at h
  | ok o =>
    cases o with
    | none => simp [hG] at h
    | some r2 => exact MatchCIGo_cons_head (hkw ▸ hG)

theorem ParseGeometry_head {f : Nat} {hz hm zm : Bool} {rem : List Char}
    {out : (Geometry × Bool × Bool × Bool) × List Char}
    (h : WKTReader.ParseGeometry f hz hm zm rem = .ok out) :
    ∃ d r, rem = d :: r ∧
      (d.toLower = 'p' ∨ d.toLower = 'l' ∨ d.toLower = 'm' ∨ d.toLower = 'g') := by
  cases f with
  | zero => simp [WKTReader.ParseGeometry] at h
  | succ k =>
    rw [WKTReader.ParseGeometry] at h
    cases h1 : WKTReader.MatchCI "POINT" rem with
    | error e => simp [h1] at h
    | ok v1 =>
    obtain ⟨b1, r1⟩ := v1
    cases b1
    case true =>
      obtain ⟨d, r0, hr, hd⟩ := MatchCI_true_head rfl h1
      exact ⟨d, r0, hr, Or.inl (by rw [hd]; decide)⟩
    case false =>
    simp only [h1] at h
    cases h2 : WKTReader.MatchCI "LINESTRING" rem with
    | error e => simp [h2] at h
    | ok v2 =>
    obtain ⟨b2, r2⟩ := v2
    cases b2
    case true =>
      obtain ⟨d, r0, hr, hd⟩ := MatchCI_true_head rfl h2
      exact ⟨d, r0, hr, Or.inr (Or.inl (by rw [hd]; decide))⟩
    case false =>
    simp only [h2] at h
    cases h3 : WKTReader.MatchCI "POLYGON" rem with
    | error e => simp [h3] at h
    | ok v3 =>
    obtain ⟨b3, r3⟩ := v3
    cases b3
    case true =>
      obtain ⟨d, r0, hr, hd⟩ := MatchCI_true_head rfl h3
      exact ⟨d, r0, hr, Or.inl (by rw [hd]; decide)⟩
    case false =>
    simp only [h3] at h
    cases h4 : WKTReader.MatchCI "MULTIPOINT" rem with
    | error e => simp [h4] at h
    | ok v4 =>
    obtain ⟨b4, r4⟩ := v4
    cases b4
    case true =>
      obtain ⟨d, r0, hr, hd⟩ := MatchCI_true_head rfl h4
      exact ⟨d, r0, hr, Or.inr (Or.inr (Or.inl (by rw [hd]; decide)))⟩
    case false =>
    simp only [h4] at h
    cases h5 : WKTReader.MatchCI "MULTILINESTRING" rem with
    | error e => simp [h5] at h
    | ok v5 =>
    obtain ⟨b5, r5⟩ := v5
    cases b5
    case true =>
      obtain ⟨d, r0, hr, hd⟩ := MatchCI_true_head rfl h5
      exact ⟨d, r0, hr, Or.inr (Or.inr (Or.inl (by rw [hd]; decide)))⟩
    case false =>
    simp only [h5] at h
    cases h6 : WKTReader.MatchCI "MULTIPOLYGON" rem with
    | error e => simp [h6] at h
    | ok v6 =>
    obtain ⟨b6, r6⟩ := v6
    cases b6
    case true =>
      obtain ⟨d, r0, hr, hd⟩ := MatchCI_true_head rfl h6
      exact ⟨d, r0, hr, Or.inr (Or.inr (Or.inl (by rw [hd]; decide)))⟩
    case false =>
    simp only [h6] at h
    cases h7 : WKTReader.MatchCI "GEOMETRYCOLLECTION" rem with
    | error e => simp [h7] at h
    | ok v7 =>
    obtain ⟨b7, r7⟩ := v7
    cases b7
    case true =>
      obtain ⟨d, r0, hr, hd⟩ := MatchCI_true_head rfl h7
      exact ⟨d, r0, hr, Or.inr (Or.inr (Or.inr (by rw [hd]; decide)))⟩
    case false =>
      simp [h7] at h

theorem keywordHead_facts {d : Char}
    (hd : d.toLower = 'p' ∨ d.toLower = 'l' ∨ d.toLower = 'm' ∨ d.toLower = 'g') :
    WKTReader.isSpaceChar d = false ∧ d.toLower ≠ 's' := by
  constructor
  · by_contra hns
    simp only [Bool.not_eq_false] at hns
    have hsp : ((((d = ' ' ∨ d = '\t') ∨ d = '\n') ∨ d = '\x0b') ∨ d = '\x0c') ∨ d = '\r' := by
      simpa [WKTReader.isSpaceChar] using hns
    rcases hsp with ((((rfl | rfl) | rfl) | rfl) | rfl) | rfl <;>
      rcases hd with hd | hd | hd | hd <;> exact absurd hd (by decide)
  · intro hs
    rw [hs] at hd
    rcases hd with hd | hd | hd | hd <;> exact absurd hd (by decide)

theorem MatchCI_SRID_false {d : Char} {r : List Char} (hd : d.toLower ≠ 's') :
    WKTReader.MatchCI "SRID" (d :: r) = .ok (false, d :: r) := by
  have h1 : WKTReader.MatchCIGo "SRID".data (d :: r) = .ok none := by
    rw [show "SRID".data = 'S' :: "RID".data from rfl]
    simp only [WKTReader.MatchCIGo]
    simp [hd]
  simp [WKTReader.MatchCI, h1]

theorem SkipWhitespace_cons {d : Char} {r : List Char}
    (h : WKTReader.isSpaceChar d = false) :
    WKTReader.SkipWhitespace (d :: r) = d :: r := by
  simp [WKTReader.SkipWhitespace, h]

theorem isSpaceChar_false_of_isDigit {c : Char} (h : c.isDigit = true) :
    WKTReader.isSpaceChar c = false := by
  by_contra hns
  simp only [Bool.not_eq_false] at hns
  have hsp : ((((c = ' ' ∨ c = '\t') ∨ c = '\n') ∨ c = '\x0b') ∨ c = '\x0c') ∨ c = '\r' := by
    simpa [WKTReader.isSpaceChar] using hns
  rcases hsp with ((((rfl | rfl) | rfl) | rfl) | rfl) | rfl <;> exact absurd h (by decide)

theorem SkipWhitespace_digits {digits W : List Char}
    (hdig : ∀ c ∈ digits, c.isDigit = true) :
    WKTReader.SkipWhitespace (digits ++ ';' :: W) = digits ++ ';' :: W := by
  cases digits with
  | nil =>
    simp only [List.nil_append]
    exact SkipWhitespace_cons (by decide)
  | cons c cs =>
    simp only [List.cons_append]
    exact SkipWhitespace_cons (isSpaceChar_false_of_isDigit (hdig c (by simp)))

theorem SkipToSemicolon_digits {W : List Char} : ∀ {digits : List Char},
    (∀ c ∈ digits, c.isDigit = true) →
    WKTReader.SkipToSemicolon (digits ++ ';' :: W) = ';' :: W := by
  intro digits
  induction digits with
  | nil => intro _; simp [WKTReader.SkipToSemicolon]
  | cons c cs ih =>
    intro hdig
    have hc : c.isDigit = true := hdig c (by simp)
    have hne : ¬ (c = ';') := by
      intro hcc
      subst hcc
      exact absurd hc (by decide)
    simp only [List.cons_append, WKTReader.SkipToSemicolon, if_neg hne]
    exact ih (fun x hx => hdig x (by simp [hx]))

/-- C6: `WKTReader::ParseWKT` recognizes and discards an `SRID<digits>;`
prefix: whenever a WKT body `W` parses to a geometry `g` (with final reader
flags and remainder), the bare input `W` and the prefixed input
`SRID<digits>;W` both parse to exactly the same tree `g` — nothing of the
SRID is retained in the result. -/
theorem c6_srid_discarded (digits : List Char) (W : String) (g : Geometry)
    (a b c : Bool) (r : List Char)
    (hdig : ∀ ch ∈ digits, ch.isDigit = true)
    (hW : WKTReader.ParseGeometry (W.data.length + 1) false false false W.data
      = .ok ((g, a, b, c), r)) :
    WKTReader.Parse W = .ok g ∧
    WKTReader.Parse (String.mk ("SRID".data ++ digits ++ ';' :: W.data)) = .ok g := by
  obtain ⟨d, r0, hWd, hd4⟩ := ParseGeometry_head hW
  obtain ⟨hds, hdns⟩ := keywordHead_facts hd4
  have hsw : WKTReader.SkipWhitespace W.data = W.data := by
    rw [hWd]; exact SkipWhitespace_cons hds
  have hsrid : WKTReader.MatchCI "SRID" W.data = .ok (false, W.data) := by
    rw [hWd]; exact MatchCI_SRID_false hdns
  constructor
  · have hwkt : WKTReader.ParseWKT (W.data.length + 1) false false false W.data
        = .ok ((g, a, b, c), r) := by
      simp only [WKTReader.ParseWKT, hsrid]
      exact hW
    simp only [WKTReader.Parse]
    rw [hwkt]
  · have hlen : ('S' :: 'R' :: 'I' :: 'D' :: (digits ++ ';' :: W.data)).length + 1
        = digits.length + W.data.length + 6 := by
      simp only [List.length_cons, List.length_append]
      omega
    have hle : W.data.length + 1 ≤ digits.length + W.data.length + 6 := by omega
    have hW2 := ParseGeometry_mono hle hW
    have hwkt2 : WKTReader.ParseWKT (digits.length + W.data.length + 6) false false false
        ('S' :: 'R' :: 'I' :: 'D' :: (digits ++ ';' :: W.data)) = .ok ((g, a, b, c), r) := by
      simp only [WKTReader.ParseWKT]
      simp only [show ∀ x : List Char, WKTReader.MatchCI "SRID" ('S' :: 'R' :: 'I' :: 'D' :: x)
        = .ok (true, WKTReader.SkipWhitespace x) from fun x => rfl]
      rw [SkipWhitespace_digits hdig, SkipToSemicolon_digits hdig]
      simp only [show ∀ x : List Char, WKTReader.Expect ';' (';' :: x)
        = .ok (WKTReader.SkipWhitespace x) from fun x => rfl]
      rw [hsw, hsw]
      exact hW2
    simp only [WKTReader.Parse, List.cons_append, List.nil_append]
    rw [hlen, hwkt2]

/-- C6 witness: the body `POINT(1 2)` and the prefixed input
`SRID4326;POINT(1 2)` both parse to the point `(1, 2)`. -/
theorem c6_srid_discarded_witness :
    WKTReader.Parse "POINT(1 2)" = .ok (.point ⟨⟨false, false, [[1, 2]]⟩⟩) ∧
    WKTReader.Parse (String.mk ("SRID".data ++ "4326".data ++ ';' :: "POINT(1 2)".data))
      = .ok (.point ⟨⟨false, false, [[1, 2]]⟩⟩) :=
  c6_srid_discarded "4326".data "POINT(1 2)" (.point ⟨⟨false, false, [[1, 2]]⟩⟩)
    false false true [] (by decide) (by decide)

/-! ### The `MULTIPOINT` body with and without per-vertex parens -/

theorem JoinComma_split (t : List Char) (ts : List (List Char)) (tail : List Char) :
    JoinComma (t :: ts) ++ ')' :: tail = t ++ MPRest ts tail := by
  cases ts with
  | nil => simp [JoinComma, MPRest]
  | cons u us => simp [JoinComma, MPRest]

theorem JoinComma_length_ge : ∀ (t : List Char) (ts : List (List Char)),
    ts.length ≤ (JoinComma (t :: ts)).length := by
  intro t ts
  induction ts generalizing t with
  | nil => simp
  | cons u us ih =>
    rw [show JoinComma (t :: u :: us) = t ++ ',' :: JoinComma (u :: us) from rfl]
    have h1 := ih u
    simp only [List.length_cons, List.length_append]
    omega

theorem ParseVertex_double {hz hm : Bool} {rem : List Char} {out : Vertex × List Char}
    (h : WKTReader.ParseVertex hz hm rem = .ok out) :
    ∃ v, WKTReader.ParseDouble rem = .ok v := by
  rw [WKTReader.ParseVertex] at h
  cases hD : WKTReader.ParseDouble rem with
  | error e => simp [hD] at h
  | ok v => exact ⟨v, rfl⟩

theorem ParseDouble_junk_head {d : Char}
    (hd : (((((d = ' ' ∨ d = '\t') ∨ d = '\n') ∨ d = '\x0b') ∨ d = '\x0c') ∨ d = '\r')
      ∨ d = '(')
    (r : List Char) :
    WKTReader.ParseDouble (d :: r) = .error (.expectedDouble (d :: r)) := by
  rcases hd with (((((rfl | rfl) | rfl) | rfl) | rfl) | rfl) | rfl <;> rfl

theorem VertexChunk_head {t : List Char} {c : Vertex} (h : VertexChunk t c) :
    ∃ d t', t = d :: t' ∧ WKTReader.isSpaceChar d = false ∧ d ≠ '(' := by
  have h1 := h ',' [] (Or.inl rfl)
  cases t with
  | nil =>
    simp only [List.nil_append] at h1
    rw [show WKTReader.ParseVertex false false (',' :: [])
        = .error (.expectedDouble [',']) from rfl] at h1
    simp at h1
  | cons d t' =>
    simp only [List.cons_append] at h1
    obtain ⟨v, hv⟩ := ParseVertex_double h1
    refine ⟨d, t', rfl, ?_, ?_⟩
    · by_contra hns
      simp only [Bool.not_eq_false] at hns
      have hsp : ((((d = ' ' ∨ d = '\t') ∨ d = '\n') ∨ d = '\x0b') ∨ d = '\x0c')
          ∨ d = '\r' := by
        simpa [WKTReader.isSpaceChar] using hns
      rw [ParseDouble_junk_head (Or.inl hsp) (t' ++ [','])] at hv
      simp at hv
    · intro hdp
      rw [ParseDouble_junk_head (Or.inr hdp) (t' ++ [','])] at hv
      simp at hv

theorem SkipWhitespace_MPRest (ts : List (List Char)) (tail : List Char) :
    WKTReader.SkipWhitespace (MPRest ts tail) = MPRest ts tail := by
  cases ts with
  | nil => rfl
  | cons u us => rfl

theorem Match_comma_eq (x : List Char) :
    WKTReader.Match ',' (',' :: x) = .ok (true, WKTReader.SkipWhitespace x) := rfl

theorem Match_lparen_eq (x : List Char) :
    WKTReader.Match '(' ('(' :: x) = .ok (true, WKTReader.SkipWhitespace x) := rfl

theorem Expect_rparen_eq (x : List Char) :
    WKTReader.Expect ')' (')' :: x) = .ok (WKTReader.SkipWhitespace x) := rfl

theorem MultiPointItem_bare {d : Char} {t' : List Char} {c : Vertex}
    (hc : VertexChunk (d :: t') c)
    (hds : WKTReader.isSpaceChar d = false) (hdp : d ≠ '(')
    (ts : List (List Char)) (tail : List Char) :
    WKTReader.ParseMultiPointItem false false (d :: (t' ++ MPRest ts tail))
      = .ok (⟨⟨false, false, [c]⟩⟩, MPRest ts tail) := by
  have hv : WKTReader.ParseVertex false false ((d :: t') ++ MPRest ts tail)
      = .ok (c, MPRest ts tail) := by
    cases ts with
    | nil => exact hc ')' tail (Or.inr rfl)
    | cons u us => exact hc ',' (JoinComma (u :: us) ++ ')' :: tail) (Or.inl rfl)
  simp only [List.cons_append] at hv
  have hm : WKTReader.Match '(' (d :: (t' ++ MPRest ts tail))
      = .ok (false, d :: (t' ++ MPRest ts tail)) := by
    simp [WKTReader.Match, hdp]
  rw [WKTReader.ParseMultiPointItem]
  simp only [hm, hv]

theorem MultiPointItem_paren {d : Char} {t' : List Char} {c : Vertex}
    (hc : VertexChunk (d :: t') c)
    (hds : WKTReader.isSpaceChar d = false)
    (ts : List (List Char)) (tail : List Char) :
    WKTReader.ParseMultiPointItem false false (ParenWrap (d :: t') ++ MPRest ts tail)
      = .ok (⟨⟨false, false, [c]⟩⟩, MPRest ts tail) := by
  have hv : WKTReader.ParseVertex false false ((d :: t') ++ ')' :: MPRest ts tail)
      = .ok (c, ')' :: MPRest ts tail) := hc ')' (MPRest ts tail) (Or.inr rfl)
  simp only [List.cons_append] at hv
  rw [show ParenWrap (d :: t') ++ MPRest ts tail
      = '(' :: (d :: (t' ++ ')' :: MPRest ts tail)) from by simp [ParenWrap]]
  rw [WKTReader.ParseMultiPointItem]
  simp only [Match_lparen_eq]
  rw [SkipWhitespace_cons hds]
  simp only [hv]
  simp only [Expect_rparen_eq]
  rw [SkipWhitespace_MPRest]

theorem MultiPointLoop_bare {tail : List Char} : ∀ (ts : List (List Char)) (cs : List Vertex),
    List.Forall₂ VertexChunk ts cs → ∀ (fuel : Nat), ts.length < fuel → ∀ (acc : List Point),
    WKTReader.ParseMultiPointLoop false false fuel (MPRest ts tail) acc
      = .ok (acc ++ cs.map (fun c => ⟨⟨false, false, [c]⟩⟩), ')' :: tail) := by
  intro ts
  induction ts with
  | nil =>
    intro cs hf fuel hfuel acc
    cases hf
    obtain ⟨k, rfl⟩ : ∃ k, fuel = k + 1 := ⟨fuel - 1, by omega⟩
    rw [WKTReader.ParseMultiPointLoop]
    simp [MPRest, WKTReader.Match]
  | cons t ts' ih =>
    intro cs hf fuel hfuel acc
    cases hf with
    | cons hc hrest =>
      rename_i c cs'
      obtain ⟨k, rfl⟩ : ∃ k, fuel = k + 1 := ⟨fuel - 1, by omega⟩
      obtain ⟨d, t', hdt, hds, hdp⟩ := VertexChunk_head hc
      subst hdt
      rw [WKTReader.ParseMultiPointLoop]
      rw [show MPRest ((d :: t') :: ts') tail
          = ',' :: (JoinComma ((d :: t') :: ts') ++ ')' :: tail) from rfl]
      rw [JoinComma_split]
      simp only [List.cons_append]
      simp only [Match_comma_eq]
      rw [SkipWhitespace_cons hds]
      simp only [MultiPointItem_bare hc hds hdp ts' tail]
      have hloop := ih cs' hrest k (by simp at hfuel; omega) (acc ++ [⟨⟨false, false, [c]⟩⟩])
      simpa using hloop

theorem MultiPointLoop_paren {tail : List Char} : ∀ (ts : List (List Char)) (cs : List Vertex),
    List.Forall₂ VertexChunk ts cs → ∀ (fuel : Nat), ts.length < fuel → ∀ (acc : List Point),
    WKTReader.ParseMultiPointLoop false false fuel (MPRest (ts.map ParenWrap) tail) acc
      = .ok (acc ++ cs.map (fun c => ⟨⟨false, false, [c]⟩⟩), ')' :: tail) := by
  intro ts
  induction ts with
  | nil =>
    intro cs hf fuel hfuel acc
    cases hf
    obtain ⟨k, rfl⟩ : ∃ k, fuel = k + 1 := ⟨fuel - 1, by omega⟩
    rw [WKTReader.ParseMultiPointLoop]
    simp [MPRest, WKTReader.Match]
  | cons t ts' ih =>
    intro cs hf fuel hfuel acc
    cases hf with
    | cons hc hrest =>
      rename_i c cs'
      obtain ⟨k, rfl⟩ : ∃ k, fuel = k + 1 := ⟨fuel - 1, by omega⟩
      obtain ⟨d, t', hdt, hds, hdp⟩ := VertexChunk_head hc
      subst hdt
      rw [WKTReader.ParseMultiPointLoop]
      rw [show MPRest (((d :: t') :: ts').map ParenWrap) tail
          = ',' :: (JoinComma (ParenWrap (d :: t') :: ts'.map ParenWrap) ++ ')' :: tail)
          from rfl]
      rw [JoinComma_split]
      simp only [Match_comma_eq]
      rw [show WKTReader.SkipWhitespace (ParenWrap (d :: t') ++ MPRest (ts'.map ParenWrap) tail)
          = ParenWrap (d :: t') ++ MPRest (ts'.map ParenWrap) tail from by
        simp only [ParenWrap, List.cons_append]
        exact SkipWhitespace_cons (by decide)]
      simp only [MultiPointItem_paren hc hds (ts'.map ParenWrap) tail]
      have hloop := ih cs' hrest k (by simp at hfuel; omega) (acc ++ [⟨⟨false, false, [c]⟩⟩])
      simpa using hloop

theorem ParseMultiPoint_bare {t : List Char} {ts : List (List Char)} {c : Vertex}
    {cs : List Vertex} (hf : List.Forall₂ VertexChunk (t :: ts) (c :: cs))
    {fuel : Nat} (hfuel : ts.length < fuel) :
    WKTReader.ParseMultiPoint false false fuel ('(' :: (JoinComma (t :: ts) ++ [')']))
      = .ok (⟨false, false, (c :: cs).map (fun v => ⟨⟨false, false, [v]⟩⟩)⟩, []) := by
  cases hf with
  | cons hc hrest =>
    obtain ⟨d, t', hdt, hds, hdp⟩ := VertexChunk_head hc
    subst hdt
    rw [WKTReader.ParseMultiPoint]
    simp only [show ∀ x : List Char, WKTReader.MatchCI "EMPTY" ('(' :: x)
      = .ok (false, '(' :: x) from fun x => rfl]
    simp only [show ∀ x : List Char, WKTReader.Expect '(' ('(' :: x)
      = .ok (WKTReader.SkipWhitespace x) from fun x => rfl]
    rw [JoinComma_split]
    simp only [List.cons_append]
    rw [SkipWhitespace_cons hds]
    simp only [MultiPointItem_bare hc hds hdp ts []]
    rw [MultiPointLoop_bare ts cs hrest fuel hfuel [⟨⟨false, false, [c]⟩⟩]]
    simp only [Expect_rparen_eq]
    simp [WKTReader.SkipWhitespace]

theorem ParseMultiPoint_paren {t : List Char} {ts : List (List Char)} {c : Vertex}
    {cs : List Vertex} (hf : List.Forall₂ VertexChunk (t :: ts) (c :: cs))
    {fuel : Nat} (hfuel : ts.length < fuel) :
    WKTReader.ParseMultiPoint false false fuel
      ('(' :: (JoinComma ((t :: ts).map ParenWrap) ++ [')']))
      = .ok (⟨false, false, (c :: cs).map (fun v => ⟨⟨false, false, [v]⟩⟩)⟩, []) := by
  cases hf with
  | cons hc hrest =>
    obtain ⟨d, t', hdt, hds, hdp⟩ := VertexChunk_head hc
    subst hdt
    rw [WKTReader.ParseMultiPoint]
    simp only [show ∀ x : List Char, WKTReader.MatchCI "EMPTY" ('(' :: x)
      = .ok (false, '(' :: x) from fun x => rfl]
    simp only [show ∀ x : List Char, WKTReader.Expect '(' ('(' :: x)
      = .ok (WKTReader.SkipWhitespace x) from fun x => rfl]
    rw [show ((d :: t') :: ts).map ParenWrap = ParenWrap (d :: t') :: ts.map ParenWrap
        from rfl]
    rw [JoinComma_split]
    rw [show WKTReader.SkipWhitespace (ParenWrap (d :: t') ++ MPRest (ts.map ParenWrap) [])
        = ParenWrap (d :: t') ++ MPRest (ts.map ParenWrap) [] from by
      simp only [ParenWrap, List.cons_append]
      exact SkipWhitespace_cons (by decide)]
    simp only [MultiPointItem_paren hc hds (ts.map ParenWrap) []]
    rw [MultiPointLoop_paren ts cs hrest fuel hfuel [⟨⟨false, false, [c]⟩⟩]]
    simp only [Expect_rparen_eq]
    simp [WKTReader.SkipWhitespace]

theorem ParseGeometry_MULTIPOINT {k : Nat} {x : List Char} {mp : MultiPoint}
    {rest : List Char}
    (hmp : WKTReader.ParseMultiPoint false false k ('(' :: x) = .ok (mp, rest)) :
    WKTReader.ParseGeometry (k + 1) false false false ("MULTIPOINT".data ++ '(' :: x)
      = .ok ((.multipoint mp, false, false, true), rest) := by
  rw [WKTReader.ParseGeometry]
  simp only [show ∀ y : List Char, WKTReader.MatchCI "POINT" ("MULTIPOINT".data ++ '(' :: y)
    = .ok (false, "MULTIPOINT".data ++ '(' :: y) from fun y => rfl]
  simp only [show ∀ y : List Char,
    WKTReader.MatchCI "LINESTRING" ("MULTIPOINT".data ++ '(' :: y)
    = .ok (false, "MULTIPOINT".data ++ '(' :: y) from fun y => rfl]
  simp only [show ∀ y : List Char, WKTReader.MatchCI "POLYGON" ("MULTIPOINT".data ++ '(' :: y)
    = .ok (false, "MULTIPOINT".data ++ '(' :: y) from fun y => rfl]
  simp only [show ∀ y : List Char,
    WKTReader.MatchCI "MULTIPOINT" ("MULTIPOINT".data ++ '(' :: y)
    = .ok (true, '(' :: y) from fun y => rfl]
  simp only [show ∀ y : List Char, WKTReader.CheckZM false false false ('(' :: y)
    = .ok ((false, false, true), '(' :: y) from fun y => rfl]
  simp only [hmp]

theorem ParseWKT_MULTIPOINT {f : Nat} {x : List Char}
    {out : (Geometry × Bool × Bool × Bool) × List Char}
    (h : WKTReader.ParseGeometry f false false false ("MULTIPOINT".data ++ '(' :: x)
      = .ok out) :
    WKTReader.ParseWKT f false false false ("MULTIPOINT".data ++ '(' :: x) = .ok out := by
  simp only [WKTReader.ParseWKT,
    show ∀ y : List Char, WKTReader.MatchCI "SRID" ("MULTIPOINT".data ++ '(' :: y)
      = .ok (false, "MULTIPOINT".data ++ '(' :: y) from fun y => rfl]
  exact h

theorem Parse_of_ParseWKT {wkt : String} {g : Geometry} {a b c : Bool} {r : List Char}
    (h : WKTReader.ParseWKT (wkt.data.length + 1) false false false wkt.data
      = .ok ((g, a, b, c), r)) :
    WKTReader.Parse wkt = .ok g := by
  simp only [WKTReader.Parse]
  rw [h]

/-- C4: the parens around each individual vertex of a `MULTIPOINT` body are
optional and do not change the result: `MULTIPOINT(1 1, 2 2)` and
`MULTIPOINT((1 1), (2 2))` parse to identical trees, and in general, for any
nonempty list of member chunks that parse as bare vertices, the
unparenthesized and the parenthesized renderings of the body parse to the
same `MultiPoint` tree. -/
theorem c4_multipoint_optional_parens :
    (WKTReader.Parse "MULTIPOINT(1 1, 2 2)" = WKTReader.Parse "MULTIPOINT((1 1), (2 2))" ∧
     WKTReader.Parse "MULTIPOINT(1 1, 2 2)" = .ok (MultiPointOf [[1, 1], [2, 2]])) ∧
    ∀ (t : List Char) (ts : List (List Char)) (c : Vertex) (cs : List Vertex),
      List.Forall₂ VertexChunk (t :: ts) (c :: cs) →
      WKTReader.Parse (String.mk ("MULTIPOINT".data ++ '(' :: (JoinComma (t :: ts) ++ [')'])))
        = .ok (MultiPointOf (c :: cs)) ∧
      WKTReader.Parse (String.mk ("MULTIPOINT".data ++ '(' ::
          (JoinComma ((t :: ts).map ParenWrap) ++ [')'])))
        = .ok (MultiPointOf (c :: cs)) := by
  constructor
  · exact ⟨by decide, by decide⟩
  · intro t ts c cs hf
    constructor
    · have hbound : ts.length
          < ("MULTIPOINT".data ++ '(' :: (JoinComma (t :: ts) ++ [')'])).length := by
        have h1 := JoinComma_length_ge t ts
        simp only [List.length_append, List.length_cons]
        omega
      have hmp := ParseMultiPoint_bare hf hbound
      exact Parse_of_ParseWKT (by
        rw [show (String.mk ("MULTIPOINT".data ++ '(' :: (JoinComma (t :: ts) ++ [')']))).data
            = "MULTIPOINT".data ++ '(' :: (JoinComma (t :: ts) ++ [')']) from rfl]
        exact ParseWKT_MULTIPOINT (ParseGeometry_MULTIPOINT hmp))
    · have hbound : ts.length
          < ("MULTIPOINT".data ++ '(' ::
              (JoinComma ((t :: ts).map ParenWrap) ++ [')'])).length := by
        have h1 := JoinComma_length_ge (ParenWrap t) (ts.map ParenWrap)
        simp only [List.map_cons, List.length_append, List.length_cons,
          List.length_map] at h1 ⊢
        omega
      have hmp := ParseMultiPoint_paren hf hbound
      exact Parse_of_ParseWKT (by
        rw [show (String.mk ("MULTIPOINT".data ++ '(' ::
              (JoinComma ((t :: ts).map ParenWrap) ++ [')']))).data
            = "MULTIPOINT".data ++ '(' :: (JoinComma ((t :: ts).map ParenWrap) ++ [')'])
            from rfl]
        exact ParseWKT_MULTIPOINT (ParseGeometry_MULTIPOINT hmp))

/-- C4 witness: the chunks `1 1` and `2 2` satisfy the member-chunk property,
and the two renderings of the body parse to the same two-member multipoint. -/
theorem c4_multipoint_optional_parens_witness :
    WKTReader.Parse (String.mk ("MULTIPOINT".data ++ '(' ::
        (JoinComma ["1 1".data, "2 2".data] ++ [')'])))
      = .ok (MultiPointOf [[1, 1], [2, 2]]) ∧
    WKTReader.Parse (String.mk ("MULTIPOINT".data ++ '(' ::
        (JoinComma (["1 1".data, "2 2".data].map ParenWrap) ++ [')'])))
      = .ok (MultiPointOf [[1, 1], [2, 2]]) :=
  c4_multipoint_optional_parens.2 "1 1".data ["2 2".data] [1, 1] [[2, 2]]
    (by
      refine List.Forall₂.cons ?_ (List.Forall₂.cons ?_ List.Forall₂.nil)
      · intro ch r hch
        rw [show ([1, 1] : Vertex)
            = [WKTReader.RatOfDecimal false 1 0, WKTReader.RatOfDecimal false 1 0]
            from by decide]
        rcases hch with rfl | rfl <;> rfl
      · intro ch r hch
        rw [show ([2, 2] : Vertex)
            = [WKTReader.RatOfDecimal false 2 0, WKTReader.RatOfDecimal false 2 0]
            from by decide]
        rcases hch with rfl | rfl <;> rfl)

end DuckdbSpatial
